import Mathlib

/-!
Verification development for the deployment/orchestration layer of
tribute-contracts (`src/utils/deployment-util.js`).

The JavaScript source is shallowly embedded: the options bag becomes an
association list of JS values, the asynchronous sequential promise folds
become structural recursion over lists, and the chain client becomes an
explicit state (`Chain`) holding a fresh-address counter and an ordered
event trace.  Chain calls (deployments, registry writes, configuration
calls) are recorded as events; the external chain client is modelled as
always succeeding, so the only failures are the configuration failures
raised by the deployment layer itself, mirroring the `throw` sites of the
source.
-/

set_option maxRecDepth 8000

namespace TributeDeploy

/-- Categories of contract descriptors, mirroring `ContractType` from
`migrations/configs/contracts.config` as consumed by deployment-util.js. -/
inductive ContractType where
  | Core
  | Factory
  | Extension
  | Adapter
  | Util
  | Test
deriving DecidableEq, Repr

/-- Access-control declarations of a descriptor (`configs.acls`): the
DAO-level flag list (`acls.dao`, tested by the source only for truthiness,
hence an `Option`) and the per-extension flag lists keyed by extension id
(`acls.extensions`, accessed through `Object.keys`). -/
structure Acls where
  dao : Option (List String)
  extensions : List (String × List String)
deriving DecidableEq, Repr

/-- A contract descriptor from the configuration table
(`options.contractConfigs`).  `generatesExtensionId` is only meaningful for
factories and may be absent (`undefined` in JS), hence `Option`.
`deploymentArgs` and `daoConfigs` may be absent in JS; an absent list and an
empty list behave identically in every use site (`xs && xs.length > 0`), so
both are modelled as `[]`.  The source's `alias` field is spelled
`aliasName` because `alias` is a reserved word in Lean. -/
structure ContractConfig where
  id : String
  name : String
  aliasName : String
  ctype : ContractType
  enabled : Bool
  skipAutoDeploy : Bool
  deploymentArgs : List String
  generatesExtensionId : Option String
  acls : Acls
  daoConfigs : List (List String)
deriving DecidableEq, Repr

/-- JavaScript values as far as the deployment layer observes them:
`undefined`, `null`, booleans, numbers, strings, on-chain address strings
(`addr`, always truthy, as every `"0x…"` string is non-empty), and contract
artifacts.  An artifact carries the descriptor it embeds (`embedConfigs`
from contract-util.js, which is not under src/, tags every handle with its
originating descriptor per the spec's data model). -/
inductive JSVal where
  | undefined
  | null
  | bool (b : Bool)
  | num (n : Int)
  | str (s : String)
  | addr (a : Nat)
  | artifact (cfg : ContractConfig)
deriving DecidableEq, Repr

/-- JavaScript truthiness, restricted to the values of the model.  An
address string such as `"0x0000…"` is a non-empty string and therefore
truthy. -/
def truthy : JSVal → Bool
  | .undefined => false
  | .null => false
  | .bool b => b
  | .num n => n != 0
  | .str s => s != ""
  | .addr _ => true
  | .artifact _ => true

/-- The `arg !== null && arg !== undefined` test of the source, negated:
`nullish v = true` iff the value is `null` or `undefined`. -/
def nullish : JSVal → Bool
  | .undefined => true
  | .null => true
  | _ => false

/-- Chain events recorded by the model: every on-chain call issued by the
deployment layer, in order. -/
inductive Event where
  | deploy (contractName : String) (args : Option (List JSVal))
  | create (factoryName : String) (args : Option (List JSVal))
  | getExtensionAddress (factoryName : String)
  | addExtension (hashedId : String) (addr : Nat)
  | createDao (name : JSVal)
  | getDaoAddress
  | addAdapters (ids : List String)
  | configureDaoCall (contractName : String) (values : List JSVal)
  | configureExtension (extAddr : Nat) (contractAddrs : List Nat)
  | getAdapterAddress (hashedId : String)
  | updateAdapter (id : String)
  | setAclToExtensionForAdapter (extAddr adapterAddr : Nat)
  | offchainConfigureDao (id : String)
  | finalizeDao
deriving DecidableEq, Repr

/-- The chain-client state: a fresh-address counter and the trace of issued
chain calls. -/
structure Chain where
  nextAddr : Nat
  events : List Event
deriving DecidableEq, Repr

def emit (s : Chain) (e : Event) : Chain :=
  { s with events := s.events ++ [e] }

def freshAddr (s : Chain) : Nat × Chain :=
  (s.nextAddr, { s with nextAddr := s.nextAddr + 1 })

/-- The errors thrown by deployment-util.js, one constructor per `throw`
site, each carrying the data interpolated into the source's message. -/
inductive Err where
  | contractNotFound (name : String)
  | missingArgument (argName contractName : String)
  | missingFactoryContract (name : String)
  | missingExtensionConfig (generatesExtensionId : Option String)
  | missingExtensionContract (name : String)
  | missingGeneratesExtensionId (factoryName : String)
  | missingCreateArg (argName factoryName : String)
  | extensionContractNotFound (name : String)
  | daoParamError (configName contractName : String)
  | missingBankExtension
  | notAnArtifact
deriving DecidableEq, Repr

/-- Result of a stateful step: either a value or a raised error, in both
cases with the chain state reached. -/
inductive Res (α : Type) where
  | ok (a : α) (s : Chain)
  | err (e : Err) (s : Chain)
deriving DecidableEq, Repr

/-- A deployed contract handle: its embedded descriptor and its on-chain
address. -/
structure Deployed where
  configs : ContractConfig
  address : Nat
deriving DecidableEq, Repr

/-- JavaScript-object maps keyed by strings, in insertion order. -/
abbrev JSMap (α : Type) := List (String × α)

/-- `m[k] = v` on a JS object: overwrite in place if the key exists,
otherwise append. -/
def jsInsert {α : Type} (m : JSMap α) (k : String) (v : α) : JSMap α :=
  if m.any (fun p => p.1 == k) then
    m.map (fun p => if p.1 = k then (k, v) else p)
  else m ++ [(k, v)]

/-- The options bag: the string-indexed dictionary of contract artifacts
and raw argument values, plus the configuration table
(`options.contractConfigs`).  The deploy primitive (`options.deployFunction`)
is modelled directly by `deployFunction` below. -/
structure Options where
  vals : JSMap JSVal
  contractConfigs : List ContractConfig
deriving DecidableEq, Repr

/-- `options[k]`: an absent key reads as `undefined`. -/
def Options.get (o : Options) (k : String) : JSVal :=
  match o.vals.lookup k with
  | some v => v
  | none => .undefined

/-- The deploy primitive supplied through the options bag (the external
chain-client boundary): deploying an artifact yields a handle carrying the
artifact's embedded descriptor at a fresh address, and records the call.
Invoking it on a non-artifact value cannot produce a contract. -/
def deployFunction (v : JSVal) (args : Option (List JSVal)) (s : Chain) : Res Deployed :=
  match v with
  | .artifact cfg =>
      .ok ⟨cfg, s.nextAddr⟩
        { nextAddr := s.nextAddr + 1, events := s.events ++ [.deploy cfg.name args] }
  | _ => .err .notAnArtifact s

/-- Modelled from the spec: `sha3` from contract-util.js is not under src/;
it is a deterministic content hash, modelled as an injective tagging. -/
def sha3 (s : String) : String := "sha3:" ++ s

/-- Modelled from the spec: the `UNITS` token-address constant from
contract-util.js (not under src/), inserted into the options bag by
`deployDao` under the key `unitTokenToMint`. -/
def UNITS : JSVal := .str "0x00000000000000000000000000000000000FF1CE"

/-- Modelled from the spec: the `LOOT` token-address constant from
contract-util.js (not under src/), inserted into the options bag under the
key `lootTokenToMint`. -/
def LOOT : JSVal := .str "0x00000000000000000000000000000000B105F00D"

/-- Modelled from the spec: `adaptersIdsMap.VOTING_ADAPTER` from
dao-ids-util.js (not under src/), the id of the currently registered voting
adapter. -/
def votingAdapterId : String := "voting"

/-- Resolve a declared deployment-argument name list against the options
bag: a value is missing exactly when it is `null` or `undefined`
(`arg !== null && arg !== undefined` in the source); the first missing name
aborts.  The error constructor is a parameter because `deployContract` and
`createExtensions` raise differently-worded errors. -/
def resolveArgs (o : Options) (mk : String → Err) : List String → Except Err (List JSVal)
  | [] => .ok []
  | a :: rest =>
    let v := o.get a
    if nullish v then .error (mk a)
    else
      match resolveArgs o mk rest with
      | .error e => .error e
      | .ok vs => .ok (v :: vs)

/-- `deployContract` (deployment-util.js lines 37-53): looks up the
descriptor's named contract artifact in the options bag (any falsy value
counts as absent), then, if the descriptor declares deployment arguments,
resolves each by name (a `null`/`undefined` value is missing) and deploys
with the resolved ordered list; with no declared arguments it deploys with
no argument list. -/
def deployContract (config : ContractConfig) (o : Options) (s : Chain) : Res Deployed :=
  let contract := o.get config.name
  if truthy contract = false then .err (.contractNotFound config.name) s
  else if config.deploymentArgs.isEmpty then deployFunction contract none s
  else
    match resolveArgs o (fun a => .missingArgument a config.name) config.deploymentArgs with
    | .error e => .err e s
    | .ok args => deployFunction contract (some args) s

/-- `options.contractConfigs.find((c) => c.id === gid)` for a factory's
`generatesExtensionId` link. -/
def genExt (o : Options) (gid : Option String) : Option ContractConfig :=
  o.contractConfigs.find? (fun cfg => some cfg.id == gid)

/-- The three chained filters applied by each deployment phase:
category, `enabled`, and not `skipAutoDeploy`. -/
def enabledOfType (o : Options) (t : ContractType) : List ContractConfig :=
  ((o.contractConfigs.filter (fun c => c.ctype == t)).filter
      (fun c => c.enabled)).filter (fun c => !c.skipAutoDeploy)

/-- The sequential body of `createFactories` (lines 62-100): for each
enabled, non-skipped Factory descriptor in table order, look up the factory
artifact (falsy counts as missing), resolve the `generatesExtensionId` link
in the configuration table, look up the linked extension's artifact, then
deploy the factory with exactly that extension artifact as its single
constructor argument, keying the accumulator by the deployed factory's
alias. -/
def createFactoriesGo (o : Options) : List ContractConfig → JSMap Deployed → Chain → Res (JSMap Deployed)
  | [], m, s => .ok m s
  | c :: rest, m, s =>
    let factoryContract := o.get c.name
    if truthy factoryContract = false then .err (.missingFactoryContract c.name) s
    else
      match genExt o c.generatesExtensionId with
      | none => .err (.missingExtensionConfig c.generatesExtensionId) s
      | some extCfg =>
        let extensionContract := o.get extCfg.name
        if truthy extensionContract = false then .err (.missingExtensionContract extCfg.name) s
        else
          match deployFunction factoryContract (some [extensionContract]) s with
          | .err e s2 => .err e s2
          | .ok factory s2 =>
            createFactoriesGo o rest (jsInsert m factory.configs.aliasName factory) s2

def createFactories (o : Options) (s : Chain) : Res (JSMap Deployed) :=
  createFactoriesGo o (enabledOfType o .Factory) [] s

/-- The tail of the inner `createExtension` of `createExtensions`
(lines 114-170) once the `create` arguments are resolved: invoke the
factory's `create`, query the created extension's address, look the
extension artifact up (falsy counts as missing), wrap the address with the
artifact's embedded descriptor (`embedConfigs`), and register the extension
with the DAO registry under the hash of its id. -/
def createExtensionFinish (o : Options) (f : Deployed) (extCfg : ContractConfig)
    (args : Option (List JSVal)) (s : Chain) : Res Deployed :=
  let s1 := emit (emit s (.create f.configs.name args)) (.getExtensionAddress f.configs.name)
  let (extensionAddress, s2) := freshAddr s1
  let extensionContract := o.get extCfg.name
  if truthy extensionContract = false then .err (.extensionContractNotFound extCfg.name) s2
  else
    match extensionContract with
    | .artifact acfg =>
      let newExtension : Deployed := ⟨acfg, extensionAddress⟩
      .ok newExtension (emit s2 (.addExtension (sha3 acfg.id) newExtension.address))
    | _ => .err .notAnArtifact s2

/-- The inner `createExtension` of `createExtensions` (lines 114-170): find
the extension descriptor linked from the factory's configs, resolve the
factory's declared `create` arguments (a `null`/`undefined` value is
missing), and finish through `createExtensionFinish`. -/
def createExtensionStep (o : Options) (f : Deployed) (s : Chain) : Res Deployed :=
  match genExt o f.configs.generatesExtensionId with
  | none => .err (.missingGeneratesExtensionId f.configs.name) s
  | some extCfg =>
    if f.configs.deploymentArgs.isEmpty then createExtensionFinish o f extCfg none s
    else
      match resolveArgs o (fun a => .missingCreateArg a f.configs.name) f.configs.deploymentArgs with
      | .error e => .err e s
      | .ok vs => createExtensionFinish o f extCfg (some vs) s

/-- The sequential fold of `createExtensions` over the deployed factories
map, in insertion order, keying the accumulator by each new extension's
alias. -/
def createExtensionsGo (o : Options) : List (String × Deployed) → JSMap Deployed → Chain → Res (JSMap Deployed)
  | [], m, s => .ok m s
  | (_, f) :: rest, m, s =>
    match createExtensionStep o f s with
    | .err e s2 => .err e s2
    | .ok ext s2 => createExtensionsGo o rest (jsInsert m ext.configs.aliasName ext) s2

def createExtensions (o : Options) (factories : JSMap Deployed) (s : Chain) : Res (JSMap Deployed) :=
  createExtensionsGo o factories [] s

/-- The shared sequential fold of `createAdapters`, `createUtilContracts`
and `createTestContracts`: deploy each descriptor through `deployContract`
and key the accumulator by the deployed contract's alias. -/
def deployByTypeGo (o : Options) : List ContractConfig → JSMap Deployed → Chain → Res (JSMap Deployed)
  | [], m, s => .ok m s
  | c :: rest, m, s =>
    match deployContract c o s with
    | .err e s2 => .err e s2
    | .ok d s2 => deployByTypeGo o rest (jsInsert m d.configs.aliasName d) s2

/-- `createAdapters` (lines 204-225). -/
def createAdapters (o : Options) (s : Chain) : Res (JSMap Deployed) :=
  deployByTypeGo o (enabledOfType o .Adapter) [] s

/-- `createUtilContracts` (lines 504-528). -/
def createUtilContracts (o : Options) (s : Chain) : Res (JSMap Deployed) :=
  deployByTypeGo o (enabledOfType o .Util) [] s

/-- `createTestContracts` (lines 530-556): a no-op returning an empty map
unless `options.deployTestTokens` is truthy. -/
def createTestContracts (o : Options) (s : Chain) : Res (JSMap Deployed) :=
  if truthy (o.get "deployTestTokens") = false then .ok [] s
  else deployByTypeGo o (enabledOfType o .Test) [] s

/-- The keys of `configs.acls.extensions`. -/
def aclExtensionIds (a : Acls) : List String := a.extensions.map (fun p => p.1)

/-- `configureAdaptersWithDAOAccess` (lines 331-359): collect the
`entryDao` entries of every enabled, non-skipped adapter whose
`acls.dao` is present, then of every enabled, non-skipped extension with a
non-empty `acls.extensions`, and submit them in one batched `addAdapters`
call.  `entryDao` and `entryBank` live in access-control-util.js, which is
not under src/; per the spec they encode access-control entries, modelled
here by the contract ids carried on the event.  This step always succeeds. -/
def configureAdaptersWithDAOAccess (extensions adapters : JSMap Deployed) (s : Chain) : Chain :=
  let adaptersWithAccess :=
    (((adapters.map (fun p => p.2)).filter (fun a => a.configs.enabled)).filter
        (fun a => !a.configs.skipAutoDeploy)).filter
      (fun a => a.configs.acls.dao.isSome)
  let contractsWithAccess :=
    (((extensions.map (fun p => p.2)).filter (fun e => e.configs.enabled)).filter
        (fun e => !e.configs.skipAutoDeploy)).filter
      (fun e => !(aclExtensionIds e.configs.acls).isEmpty)
  emit s (.addAdapters ((adaptersWithAccess ++ contractsWithAccess).map (fun c => c.configs.id)))

/-- `readConfigValue` (lines 362-381): a DAO-configuration parameter name
is resolved first against the known extension identifiers — in which case
the value is the deployed extension's address (a `"0x…"` address string is
always truthy, so the source's `!extension.address` guard reduces to the
extension being found) — and otherwise against the options bag, where any
falsy value counts as unresolved.  `extIds` stands for
`Object.values(extensionsIdsMap)` from dao-ids-util.js, which is not under
src/; modelled from the spec as the list of known extension identifiers,
taken as a parameter. -/
def readConfigValue (extIds : List String) (extensions : JSMap Deployed) (o : Options)
    (configName contractName : String) : Except Err JSVal :=
  if extIds.contains configName then
    match (extensions.map (fun p => p.2)).find? (fun e => e.configs.id == configName) with
    | none => .error (.daoParamError configName contractName)
    | some extension => .ok (.addr extension.address)
  else
    let configValue := o.get configName
    if truthy configValue = false then .error (.daoParamError configName contractName)
    else .ok configValue

/-- Resolve one `daoConfigs` group (`configEntry.map(readConfigValue)`),
aborting at the first unresolved name. -/
def resolveGroup (extIds : List String) (extensions : JSMap Deployed) (o : Options)
    (contractName : String) : List String → Except Err (List JSVal)
  | [] => .ok []
  | n :: rest =>
    match readConfigValue extIds extensions o n contractName with
    | .error e => .error e
    | .ok v =>
      match resolveGroup extIds extensions o contractName rest with
      | .error e => .error e
      | .ok vs => .ok (v :: vs)

/-- The sequential per-group fold of one adapter's `daoConfigs`: each group
is resolved and then pushed through the adapter's `configureDao` entry
point, in order. -/
def configureGroupsGo (extIds : List String) (extensions : JSMap Deployed) (o : Options)
    (contractName : String) : List (List String) → Chain → Res Unit
  | [], s => .ok () s
  | g :: gs, s =>
    match resolveGroup extIds extensions o contractName g with
    | .error e => .err e s
    | .ok vs => configureGroupsGo extIds extensions o contractName gs
        (emit s (.configureDaoCall contractName vs))

/-- The adapters subject to DAO parameter configuration: enabled,
non-skipped, and declaring at least one `daoConfigs` group. -/
def paramsAdapters (adapters : JSMap Deployed) : List Deployed :=
  (((adapters.map (fun p => p.2)).filter (fun a => a.configs.enabled)).filter
      (fun a => !a.configs.skipAutoDeploy)).filter
    (fun a => !a.configs.daoConfigs.isEmpty)

/-- `configureAdaptersWithDAOParameters` (lines 361-417): the sequential
per-adapter fold over `paramsAdapters`. -/
def configureParamsGo (extIds : List String) (extensions : JSMap Deployed) (o : Options) :
    List Deployed → Chain → Res Unit
  | [], s => .ok () s
  | a :: rest, s =>
    match configureGroupsGo extIds extensions o a.configs.name a.configs.daoConfigs s with
    | .err e s2 => .err e s2
    | .ok _ s2 => configureParamsGo extIds extensions o rest s2

/-- `configureExtensionAccess` (lines 419-435): build one access entry per
contract via the target extension's own flag encoder and submit a single
batched `configureExtension` call — only when the entry list is non-empty. -/
def configureExtensionAccess (contracts : List Deployed) (extension : Deployed) (s : Chain) : Chain :=
  if contracts.isEmpty then s
  else emit s (.configureExtension extension.address (contracts.map (fun c => c.address)))

/-- The enabled, non-skipped adapters declaring at least one ACL flag
scoped to the target extension's id (lines 448-456). -/
def adapterAccessContracts (adapters : JSMap Deployed) (targetExtension : Deployed) :
    List Deployed :=
  (((adapters.map (fun p => p.2)).filter (fun a => a.configs.enabled)).filter
      (fun a => !a.configs.skipAutoDeploy)).filter
    (fun a => (aclExtensionIds a.configs.acls).contains targetExtension.configs.id)

/-- The other enabled extensions declaring at least one ACL flag scoped to
the target extension's id (lines 479-487). -/
def extensionAccessContracts (extensions : JSMap Deployed) (targetExtension : Deployed) :
    List Deployed :=
  (((extensions.map (fun p => p.2)).filter (fun e => e.configs.enabled)).filter
      (fun e => e.configs.id != targetExtension.configs.id)).filter
    (fun e => (aclExtensionIds e.configs.acls).contains targetExtension.configs.id)

/-- The per-target-extension fold of `configureAdapters` (lines 443-467):
for each enabled, non-skipped target extension, grant access to the
enabled, non-skipped adapters that declare at least one ACL flag scoped to
the target's id. -/
def adaptersAccessGo (adapters : JSMap Deployed) : List Deployed → Chain → Chain
  | [], s => s
  | targetExtension :: rest, s =>
    adaptersAccessGo adapters rest
      (configureExtensionAccess (adapterAccessContracts adapters targetExtension)
        targetExtension s)

/-- The per-target-extension fold of `configureExtensions` (lines 474-498):
for each enabled target extension (note: no `skipAutoDeploy` filter on the
targets here, mirroring line 476), grant access to the other enabled
extensions that declare at least one ACL flag scoped to the target's id. -/
def extensionsAccessGo (extensions : JSMap Deployed) : List Deployed → Chain → Chain
  | [], s => s
  | targetExtension :: rest, s =>
    extensionsAccessGo extensions rest
      (configureExtensionAccess (extensionAccessContracts extensions targetExtension)
        targetExtension s)

/-- `configureDao` (lines 323-502): DAO-level access grants, then DAO
parameter configuration, then adapter-to-extension access grants, then
extension-to-extension access grants. -/
def configureDao (extIds : List String) (o : Options) (extensions adapters : JSMap Deployed)
    (s : Chain) : Res Unit :=
  let s1 := configureAdaptersWithDAOAccess extensions adapters s
  match configureParamsGo extIds extensions o (paramsAdapters adapters) s1 with
  | .err e s2 => .err e s2
  | .ok _ s2 =>
    let s3 := adaptersAccessGo adapters
      (((extensions.map (fun p => p.2)).filter (fun e => e.configs.enabled)).filter
        (fun e => !e.configs.skipAutoDeploy)) s2
    let s4 := extensionsAccessGo extensions
      ((extensions.map (fun p => p.2)).filter (fun e => e.configs.enabled)) s3
    .ok () s4

/-- The all-null voting-helpers result and, when off-chain voting is
enabled, the deployed helper contracts. -/
structure VotingHelpers where
  snapshotProposalContract : Option Deployed
  handleBadReporterAdapter : Option Deployed
  offchainVoting : Option Deployed
deriving DecidableEq, Repr

/-- Modelled from the spec: the address read back by
`dao.getAdapterAddress(sha3(adaptersIdsMap.VOTING_ADAPTER))`, the DAO's
currently registered voting adapter; an opaque address string. -/
def currentVotingAdapterAddress : JSVal := .addr 0

/-- `configureOffchainVoting` (lines 558-641): returns the all-null result
immediately when `options.offchainVoting` is falsy; otherwise reads the
current voting-adapter address, deploys the snapshot-proposal, voting-hash,
bad-reporter and off-chain voting contracts, replaces the DAO's voting
adapter, grants the new adapter bank-extension access (via the extension
registered under the alias `bankExt`), and invokes the new adapter's own
DAO-configuration entry point. -/
def configureOffchainVoting (o : Options) (extensions : JSMap Deployed) (s : Chain) :
    Res VotingHelpers :=
  let votingHelpers : VotingHelpers := ⟨none, none, none⟩
  if truthy (o.get "offchainVoting") = false then .ok votingHelpers s
  else
    let s1 := emit s (.getAdapterAddress (sha3 votingAdapterId))
    match deployFunction (o.get "SnapshotProposalContract") (some [o.get "chainId"]) s1 with
    | .err e s2 => .err e s2
    | .ok snapshotProposalContract s2 =>
      match deployFunction (o.get "OffchainVotingHashContract")
          (some [.addr snapshotProposalContract.address]) s2 with
      | .err e s3 => .err e s3
      | .ok offchainVotingHashContract s3 =>
        match deployFunction (o.get "KickBadReporterAdapter") none s3 with
        | .err e s4 => .err e s4
        | .ok handleBadReporterAdapter s4 =>
          match deployFunction (o.get "OffchainVotingContract")
              (some [currentVotingAdapterAddress,
                     .addr offchainVotingHashContract.address,
                     .addr snapshotProposalContract.address,
                     .addr handleBadReporterAdapter.address,
                     o.get "offchainAdmin"]) s4 with
          | .err e s5 => .err e s5
          | .ok offchainVotingContract s5 =>
            let s6 := emit s5 (.updateAdapter offchainVotingContract.configs.id)
            match extensions.lookup "bankExt" with
            | none => .err .missingBankExtension s6
            | some bankExt =>
              let s7 := emit s6
                (.setAclToExtensionForAdapter bankExt.address offchainVotingContract.address)
              let s8 := emit s7 (.offchainConfigureDao offchainVotingContract.configs.id)
              .ok ⟨some snapshotProposalContract, some handleBadReporterAdapter,
                   some offchainVotingContract⟩ s8

/-- `cloneDao` (lines 306-321): deploy the DAO factory (with the
`DaoRegistry` artifact as argument), create the named DAO through it, read
the new DAO's address back, and return the registry handle at that address
together with the factory handle. -/
def cloneDao (o : Options) (name : JSVal) (s : Chain) : Res (Deployed × Deployed) :=
  match deployFunction (o.get "DaoFactory") (some [o.get "DaoRegistry"]) s with
  | .err e s1 => .err e s1
  | .ok daoFactory s1 =>
    let s2 := emit (emit s1 (.createDao name)) .getDaoAddress
    let (daoAddress, s3) := freshAddr s2
    match o.get "DaoRegistry" with
    | .artifact registryCfg => .ok (⟨registryCfg, daoAddress⟩, daoFactory) s3
    | _ => .err .notAnArtifact s3

/-- The options-bag extension performed by `deployDao` (lines 247-252)
after cloning the DAO: insert `daoAddress`, `unitTokenToMint` and
`lootTokenToMint`. -/
def extendedOptions (o : Options) (daoAddress : Nat) : Options :=
  { o with vals :=
      jsInsert (jsInsert (jsInsert o.vals "daoAddress" (.addr daoAddress))
        "unitTokenToMint" UNITS) "lootTokenToMint" LOOT }

/-- The aggregate returned by `deployDao` (lines 295-303). -/
structure DeployedDao where
  dao : Deployed
  adapters : JSMap Deployed
  extensions : JSMap Deployed
  testContracts : JSMap Deployed
  utilContracts : JSMap Deployed
  votingHelpers : VotingHelpers
  factories : JSMap Deployed
deriving DecidableEq, Repr

/-- `deployDao` (lines 241-304): clone the DAO, extend the options bag,
deploy factories, extensions and adapters, configure the DAO, optionally
install off-chain voting (inserting the voting contract into the adapters
map under its own alias), deploy utility and test contracts, optionally
finalize, and return the aggregate. -/
def deployDao (extIds : List String) (o : Options) (s : Chain) : Res DeployedDao :=
  let name := if truthy (o.get "daoName") then o.get "daoName" else .str "test-dao"
  match cloneDao o name s with
  | .err e s1 => .err e s1
  | .ok (dao, daoFactory) s1 =>
    let o1 := extendedOptions o dao.address
    match createFactories o1 s1 with
    | .err e s2 => .err e s2
    | .ok factories s2 =>
      match createExtensions o1 factories s2 with
      | .err e s3 => .err e s3
      | .ok extensions s3 =>
        match createAdapters o1 s3 with
        | .err e s4 => .err e s4
        | .ok adapters s4 =>
          match configureDao extIds o1 extensions adapters s4 with
          | .err e s5 => .err e s5
          | .ok _ s5 =>
            match configureOffchainVoting o1 extensions s5 with
            | .err e s6 => .err e s6
            | .ok votingHelpers s6 =>
              let adapters1 :=
                match votingHelpers.offchainVoting with
                | some ov => jsInsert adapters ov.configs.aliasName ov
                | none => adapters
              match createUtilContracts o1 s6 with
              | .err e s7 => .err e s7
              | .ok utilContracts s7 =>
                match createTestContracts o1 s7 with
                | .err e s8 => .err e s8
                | .ok testContracts s8 =>
                  let s9 := if truthy (o1.get "finalize") then emit s8 .finalizeDao else s8
                  .ok ⟨dao, adapters1, extensions, testContracts, utilContracts,
                       votingHelpers, jsInsert factories "daoFactory" daoFactory⟩ s9

/-- One row of the static network table (lines 643-680). -/
structure NetworkDetail where
  name : String
  chainId : Nat
deriving DecidableEq, Repr

/-- The static network table. -/
def networks : List NetworkDetail :=
  [⟨"ganache", 1337⟩,
   ⟨"rinkeby", 4⟩,
   ⟨"rinkeby-fork", 4⟩,
   ⟨"goerli", 5⟩,
   ⟨"test", 1⟩,
   ⟨"coverage", 1⟩,
   ⟨"mainnet", 1⟩,
   ⟨"harmony", 1666600000⟩,
   ⟨"harmonytest", 1666700000⟩]

/-- `getNetworkDetails` (lines 682-684): exact-match `find` over the static
table; `undefined` (here `none`) for unknown names. -/
def getNetworkDetails (name : String) : Option NetworkDetail :=
  networks.find? (fun n => n.name == name)

/-! ### Basic lemmas: JS maps, result states, event traces -/

/-- The chain state reached by a step, whether it succeeded or failed. -/
def Res.state {α : Type} : Res α → Chain
  | .ok _ s => s
  | .err _ s => s

theorem jsInsert_of_fresh {α : Type} (m : JSMap α) (k : String) (v : α)
    (h : m.any (fun p => p.1 == k) = false) : jsInsert m k v = m ++ [(k, v)] := by
  simp [jsInsert, h]

theorem any_key_eq_contains {α : Type} (m : JSMap α) (k : String) :
    m.any (fun p => p.1 == k) = (m.map Prod.fst).contains k := by
  induction m with
  | nil => rfl
  | cons p t ih =>
    simp only [List.any_cons, List.map_cons, List.contains_cons, ih]
    by_cases h : p.1 = k
    · simp [h]
    · have h1 : (p.1 == k) = false := by simpa using h
      have h2 : (k == p.1) = false := by simpa using fun hk => h hk.symm
      simp [h1, h2]

theorem lookup_cons {α : Type} (k pk : String) (pv : α) (t : JSMap α) :
    ((pk, pv) :: t).lookup k = if k == pk then some pv else t.lookup k := by
  cases h : k == pk <;> simp [List.lookup, h]

theorem lookup_append_fresh {α : Type} (m : JSMap α) (k : String) (v : α)
    (h : m.any (fun p => p.1 == k) = false) : (m ++ [(k, v)]).lookup k = some v := by
  induction m with
  | nil => simp [List.lookup]
  | cons p t ih =>
    obtain ⟨pk, pv⟩ := p
    simp only [List.any_cons, Bool.or_eq_false_iff] at h
    have hk : (k == pk) = false := by
      have := h.1; simp at this ⊢; exact fun he => this he.symm
    rw [List.cons_append, lookup_cons]
    simp only [hk, Bool.false_eq_true, if_false]
    exact ih h.2

theorem lookup_overwrite {α : Type} (m : JSMap α) (k : String) (v : α)
    (h : m.any (fun p => p.1 == k) = true) :
    (m.map (fun p => if p.1 = k then (k, v) else p)).lookup k = some v := by
  induction m with
  | nil => simp at h
  | cons p t ih =>
    obtain ⟨pk, pv⟩ := p
    simp only [List.any_cons, Bool.or_eq_true] at h
    by_cases hp : pk = k
    · subst hp
      rw [List.map_cons, if_pos rfl, lookup_cons]
      simp
    · have hk : (k == pk) = false := by simp; exact fun he => hp he.symm
      rw [List.map_cons, if_neg hp, lookup_cons]
      simp only [hk, Bool.false_eq_true, if_false]
      exact ih (h.resolve_left (by simpa using hp))

theorem jsInsert_lookup_self {α : Type} (m : JSMap α) (k : String) (v : α) :
    (jsInsert m k v).lookup k = some v := by
  unfold jsInsert
  by_cases h : m.any (fun p => p.1 == k) = true
  · simpa [h] using lookup_overwrite m k v h
  · have h' := eq_false_of_ne_true h
    simpa [h'] using lookup_append_fresh m k v h'

theorem jsInsert_keys_fresh {α : Type} (m : JSMap α) (k : String) (v : α)
    (h : (m.map Prod.fst).contains k = false) :
    (jsInsert m k v).map Prod.fst = m.map Prod.fst ++ [k] := by
  rw [jsInsert_of_fresh m k v (by rw [any_key_eq_contains, h])]
  simp

/-- Erase a deployed handle to its descriptor. -/
def eraseD (d : Deployed) : ContractConfig := d.configs

/-- Erase a deployed-contract map to its descriptor content, keeping keys
and order. -/
def eraseMap (m : JSMap Deployed) : JSMap ContractConfig :=
  m.map (fun p => (p.1, p.2.configs))

theorem any_key_eraseMap (m : JSMap Deployed) (k : String) :
    (eraseMap m).any (fun p => p.1 == k) = m.any (fun p => p.1 == k) := by
  induction m with
  | nil => rfl
  | cons p t ih => simp only [eraseMap, List.map_cons, List.any_cons] at ih ⊢; rw [ih]

theorem eraseMap_jsInsert (m : JSMap Deployed) (k : String) (d : Deployed) :
    eraseMap (jsInsert m k d) = jsInsert (eraseMap m) k d.configs := by
  unfold jsInsert
  rw [any_key_eraseMap]
  by_cases h : m.any (fun p => p.1 == k) = true
  · simp only [h, if_true, eraseMap, List.map_map]
    apply List.map_congr_left
    intro p _
    by_cases hp : p.1 = k <;> simp [hp]
  · simp only [eq_false_of_ne_true h, Bool.false_eq_true, if_false, eraseMap, List.map_append]
    rfl

theorem eraseMap_append (m1 m2 : JSMap Deployed) :
    eraseMap (m1 ++ m2) = eraseMap m1 ++ eraseMap m2 := by
  simp [eraseMap]

theorem keys_eraseMap (m : JSMap Deployed) :
    (eraseMap m).map Prod.fst = m.map Prod.fst := by
  simp [eraseMap, List.map_map]

/-! ### Event-trace monotonicity: every step only appends events -/

theorem emit_events (s : Chain) (e : Event) : (emit s e).events = s.events ++ [e] := rfl

theorem deployFunction_events (v : JSVal) (args : Option (List JSVal)) (s : Chain) :
    ∃ t, (deployFunction v args s).state.events = s.events ++ t := by
  cases v
  case artifact cfg => exact ⟨[.deploy cfg.name args], rfl⟩
  all_goals exact ⟨[], by simp [deployFunction, Res.state]⟩

theorem deployContract_events (c : ContractConfig) (o : Options) (s : Chain) :
    ∃ t, (deployContract c o s).state.events = s.events ++ t := by
  unfold deployContract
  by_cases h1 : truthy (o.get c.name) = false
  · simp only [h1, if_true]
    exact ⟨[], by simp [Res.state]⟩
  · simp only [h1, if_false]
    by_cases h2 : c.deploymentArgs.isEmpty = true
    · simp only [h2, if_true]
      exact deployFunction_events _ _ _
    · simp only [h2, Bool.false_eq_true, if_false]
      cases hr : resolveArgs o (fun a => .missingArgument a c.name) c.deploymentArgs with
      | error e => exact ⟨[], by simp [Res.state]⟩
      | ok args => exact deployFunction_events _ _ _

theorem deployByTypeGo_events (o : Options) :
    ∀ (l : List ContractConfig) (m : JSMap Deployed) (s : Chain),
    ∃ t, (deployByTypeGo o l m s).state.events = s.events ++ t := by
  intro l
  induction l with
  | nil => exact fun m s => ⟨[], by simp [deployByTypeGo, Res.state]⟩
  | cons c rest ih =>
    intro m s
    simp only [deployByTypeGo]
    obtain ⟨t0, ht0⟩ := deployContract_events c o s
    cases h : deployContract c o s with
    | err e s2 =>
      refine ⟨t0, ?_⟩
      rw [h] at ht0
      simpa [Res.state] using ht0
    | ok d s2 =>
      rw [h] at ht0
      simp only [Res.state] at ht0
      obtain ⟨t1, ht1⟩ := ih (jsInsert m d.configs.aliasName d) s2
      refine ⟨t0 ++ t1, ?_⟩
      show (deployByTypeGo o rest (jsInsert m d.configs.aliasName d) s2).state.events = _
      rw [ht1, ht0, List.append_assoc]

theorem createFactoriesGo_events (o : Options) :
    ∀ (l : List ContractConfig) (m : JSMap Deployed) (s : Chain),
    ∃ t, (createFactoriesGo o l m s).state.events = s.events ++ t := by
  intro l
  induction l with
  | nil => exact fun m s => ⟨[], by simp [createFactoriesGo, Res.state]⟩
  | cons c rest ih =>
    intro m s
    simp only [createFactoriesGo]
    by_cases h1 : truthy (o.get c.name) = false
    · simp only [h1, if_true]
      exact ⟨[], by simp [Res.state]⟩
    · simp only [h1, if_false]
      cases hg : genExt o c.generatesExtensionId with
      | none => exact ⟨[], by simp [Res.state]⟩
      | some extCfg =>
        by_cases h2 : truthy (o.get extCfg.name) = false
        · simp only [h2, if_true]
          exact ⟨[], by simp [Res.state]⟩
        · simp only [h2, if_false]
          obtain ⟨t0, ht0⟩ := deployFunction_events (o.get c.name) (some [o.get extCfg.name]) s
          cases hd : deployFunction (o.get c.name) (some [o.get extCfg.name]) s with
          | err e s2 =>
            rw [hd] at ht0
            exact ⟨t0, by simpa [Res.state] using ht0⟩
          | ok factory s2 =>
            rw [hd] at ht0
            simp only [Res.state] at ht0
            obtain ⟨t1, ht1⟩ := ih (jsInsert m factory.configs.aliasName factory) s2
            refine ⟨t0 ++ t1, ?_⟩
            show (createFactoriesGo o rest (jsInsert m factory.configs.aliasName factory) s2).state.events = _
            rw [ht1, ht0, List.append_assoc]

theorem state_if_err {α : Type} (c : Prop) [Decidable c] (e1 e2 : Err) (s : Chain) :
    (if c then Res.err (α := α) e1 s else Res.err e2 s).state = s := by
  split <;> rfl

theorem createExtensionFinish_events (o : Options) (f : Deployed) (extCfg : ContractConfig)
    (args : Option (List JSVal)) (s : Chain) :
    ∃ t, (createExtensionFinish o f extCfg args s).state.events = s.events ++ t := by
  unfold createExtensionFinish
  cases hc : o.get extCfg.name
  case artifact acfg =>
    exact ⟨[.create f.configs.name args, .getExtensionAddress f.configs.name,
            .addExtension (sha3 acfg.id) s.nextAddr],
      by simp [Res.state, truthy, freshAddr, emit]⟩
  all_goals
    refine ⟨[.create f.configs.name args, .getExtensionAddress f.configs.name], ?_⟩
    simp only [freshAddr, emit]
    rw [state_if_err]
    simp

theorem createExtensionStep_events (o : Options) (f : Deployed) (s : Chain) :
    ∃ t, (createExtensionStep o f s).state.events = s.events ++ t := by
  unfold createExtensionStep
  split
  · exact ⟨[], by simp [Res.state]⟩
  next extCfg _ =>
    by_cases hemp : f.configs.deploymentArgs.isEmpty = true
    · simp only [hemp, if_true]
      exact createExtensionFinish_events o f extCfg none s
    · simp only [hemp, Bool.false_eq_true, if_false]
      cases hr : resolveArgs o (fun a => .missingCreateArg a f.configs.name)
          f.configs.deploymentArgs with
      | error e => exact ⟨[], by simp [Res.state]⟩
      | ok vs => exact createExtensionFinish_events o f extCfg (some vs) s

theorem createExtensionsGo_events (o : Options) :
    ∀ (fl : List (String × Deployed)) (m : JSMap Deployed) (s : Chain),
    ∃ t, (createExtensionsGo o fl m s).state.events = s.events ++ t := by
  intro fl
  induction fl with
  | nil => exact fun m s => ⟨[], by simp [createExtensionsGo, Res.state]⟩
  | cons p rest ih =>
    intro m s
    obtain ⟨pk, f⟩ := p
    simp only [createExtensionsGo]
    obtain ⟨t0, ht0⟩ := createExtensionStep_events o f s
    cases h : createExtensionStep o f s with
    | err e s2 =>
      rw [h] at ht0
      exact ⟨t0, by simpa [Res.state] using ht0⟩
    | ok ext s2 =>
      rw [h] at ht0
      simp only [Res.state] at ht0
      obtain ⟨t1, ht1⟩ := ih (jsInsert m ext.configs.aliasName ext) s2
      refine ⟨t0 ++ t1, ?_⟩
      show (createExtensionsGo o rest (jsInsert m ext.configs.aliasName ext) s2).state.events = _
      rw [ht1, ht0, List.append_assoc]

theorem cloneDao_events (o : Options) (name : JSVal) (s : Chain) :
    ∃ t, (cloneDao o name s).state.events = s.events ++ t := by
  unfold cloneDao
  obtain ⟨t0, ht0⟩ := deployFunction_events (o.get "DaoFactory") (some [o.get "DaoRegistry"]) s
  cases hd : deployFunction (o.get "DaoFactory") (some [o.get "DaoRegistry"]) s with
  | err e s1 =>
    rw [hd] at ht0
    exact ⟨t0, by simpa [Res.state] using ht0⟩
  | ok daoFactory s1 =>
    rw [hd] at ht0
    simp only [Res.state] at ht0
    cases hr : o.get "DaoRegistry" <;>
      exact ⟨t0 ++ [.createDao name, .getDaoAddress],
        by simp [Res.state, hr, freshAddr, emit, ht0]⟩

/-- Whether an event is an on-chain contract-creation call (a `deploy`
through the deploy primitive or a factory `create`). -/
def isDeployment : Event → Bool
  | .deploy _ _ => true
  | .create _ _ => true
  | _ => false

theorem configureAdaptersWithDAOAccess_events (extensions adapters : JSMap Deployed) (s : Chain) :
    ∃ t, (configureAdaptersWithDAOAccess extensions adapters s).events = s.events ++ t ∧
      ∀ e ∈ t, isDeployment e = false := by
  refine ⟨[_], rfl, ?_⟩
  simp [isDeployment]

/-- The `configureDao` events of one parameter-configured adapter: one
`configureDaoCall` per `daoConfigs` group, carrying the group's resolved
values, in group order. -/
def groupEvents (extIds : List String) (extensions : JSMap Deployed) (o : Options)
    (a : Deployed) : List Event :=
  a.configs.daoConfigs.map (fun g =>
    .configureDaoCall a.configs.name
      ((resolveGroup extIds extensions o a.configs.name g).toOption.getD []))

theorem configureGroupsGo_ok_events (extIds : List String) (extensions : JSMap Deployed)
    (o : Options) (cn : String) :
    ∀ (gs : List (List String)) (s s2 : Chain),
    configureGroupsGo extIds extensions o cn gs s = .ok () s2 →
    s2.events = s.events ++ gs.map (fun g =>
      Event.configureDaoCall cn ((resolveGroup extIds extensions o cn g).toOption.getD [])) := by
  intro gs
  induction gs with
  | nil =>
    intro s s2 h
    simp only [configureGroupsGo] at h
    cases h
    simp
  | cons g rest ih =>
    intro s s2 h
    simp only [configureGroupsGo] at h
    cases hr : resolveGroup extIds extensions o cn g with
    | error e =>
      simp only [hr] at h
      exact Res.noConfusion h
    | ok vs =>
      simp only [hr] at h
      have h2 := ih (emit s (.configureDaoCall cn vs)) s2 h
      rw [h2, emit_events, List.append_assoc]
      simp [hr, Except.toOption]

theorem configureParamsGo_ok_events (extIds : List String) (extensions : JSMap Deployed)
    (o : Options) :
    ∀ (l : List Deployed) (s s2 : Chain),
    configureParamsGo extIds extensions o l s = .ok () s2 →
    s2.events = s.events ++ l.flatMap (groupEvents extIds extensions o) := by
  intro l
  induction l with
  | nil =>
    intro s s2 h
    simp only [configureParamsGo] at h
    cases h
    simp
  | cons a rest ih =>
    intro s s2 h
    simp only [configureParamsGo] at h
    cases hg : configureGroupsGo extIds extensions o a.configs.name a.configs.daoConfigs s with
    | err e sx =>
      simp only [hg] at h
      exact Res.noConfusion h
    | ok u sx =>
      cases u
      simp only [hg] at h
      have h1 := configureGroupsGo_ok_events extIds extensions o a.configs.name
        a.configs.daoConfigs s sx hg
      have h2 := ih sx s2 h
      rw [h2, h1, List.append_assoc]
      simp [groupEvents]

theorem configureExtensionAccess_events (contracts : List Deployed) (ext : Deployed) (s : Chain) :
    ∃ t, (configureExtensionAccess contracts ext s).events = s.events ++ t ∧
      ∀ e ∈ t, isDeployment e = false := by
  unfold configureExtensionAccess
  by_cases h : contracts.isEmpty = true
  · exact ⟨[], by simp [h]⟩
  · refine ⟨[.configureExtension ext.address (contracts.map (fun c => c.address))], ?_, ?_⟩
    · simp [h, emit_events]
    · simp [isDeployment]

theorem adaptersAccessGo_events (adapters : JSMap Deployed) :
    ∀ (targets : List Deployed) (s : Chain),
    ∃ t, (adaptersAccessGo adapters targets s).events = s.events ++ t ∧
      ∀ e ∈ t, isDeployment e = false := by
  intro targets
  induction targets with
  | nil => exact fun s => ⟨[], by simp [adaptersAccessGo]⟩
  | cons ext rest ih =>
    intro s
    simp only [adaptersAccessGo]
    obtain ⟨t1, ht1, hnd1⟩ :=
      configureExtensionAccess_events (adapterAccessContracts adapters ext) ext s
    obtain ⟨t2, ht2, hnd2⟩ :=
      ih (configureExtensionAccess (adapterAccessContracts adapters ext) ext s)
    refine ⟨t1 ++ t2, ?_, ?_⟩
    · rw [ht2, ht1, List.append_assoc]
    · intro e he
      rcases List.mem_append.mp he with h | h
      exacts [hnd1 e h, hnd2 e h]

theorem extensionsAccessGo_events (extensions : JSMap Deployed) :
    ∀ (targets : List Deployed) (s : Chain),
    ∃ t, (extensionsAccessGo extensions targets s).events = s.events ++ t ∧
      ∀ e ∈ t, isDeployment e = false := by
  intro targets
  induction targets with
  | nil => exact fun s => ⟨[], by simp [extensionsAccessGo]⟩
  | cons ext rest ih =>
    intro s
    simp only [extensionsAccessGo]
    obtain ⟨t1, ht1, hnd1⟩ :=
      configureExtensionAccess_events (extensionAccessContracts extensions ext) ext s
    obtain ⟨t2, ht2, hnd2⟩ :=
      ih (configureExtensionAccess (extensionAccessContracts extensions ext) ext s)
    refine ⟨t1 ++ t2, ?_, ?_⟩
    · rw [ht2, ht1, List.append_assoc]
    · intro e he
      rcases List.mem_append.mp he with h | h
      exacts [hnd1 e h, hnd2 e h]

/-- `configureDao` only issues configuration calls: its trace delta contains
no deployment or creation call. -/
theorem configureDao_ok_events (extIds : List String) (o : Options)
    (extensions adapters : JSMap Deployed) (s s2 : Chain)
    (h : configureDao extIds o extensions adapters s = .ok () s2) :
    ∃ t, s2.events = s.events ++ t ∧ ∀ e ∈ t, isDeployment e = false := by
  unfold configureDao at h
  obtain ⟨t0, ht0, hnd0⟩ := configureAdaptersWithDAOAccess_events extensions adapters s
  cases hp : configureParamsGo extIds extensions o (paramsAdapters adapters)
      (configureAdaptersWithDAOAccess extensions adapters s) with
  | err e sx =>
    simp only [hp] at h
    exact Res.noConfusion h
  | ok u sx =>
    cases u
    simp only [hp] at h
    have h1 := configureParamsGo_ok_events extIds extensions o (paramsAdapters adapters) _ sx hp
    obtain ⟨t2, ht2, hnd2⟩ := adaptersAccessGo_events adapters
      (((extensions.map (fun p => p.2)).filter (fun e => e.configs.enabled)).filter
        (fun e => !e.configs.skipAutoDeploy)) sx
    obtain ⟨t3, ht3, hnd3⟩ := extensionsAccessGo_events extensions
      ((extensions.map (fun p => p.2)).filter (fun e => e.configs.enabled))
      (adaptersAccessGo adapters
        (((extensions.map (fun p => p.2)).filter (fun e => e.configs.enabled)).filter
          (fun e => !e.configs.skipAutoDeploy)) sx)
    cases h
    refine ⟨t0 ++ (paramsAdapters adapters).flatMap (groupEvents extIds extensions o) ++ t2 ++ t3,
      ?_, ?_⟩
    · rw [ht3, ht2, h1, ht0]
      simp [List.append_assoc]
    · intro e he
      simp only [List.append_assoc, List.mem_append] at he
      rcases he with h | h | h | h
      · exact hnd0 e h
      · obtain ⟨a, _, hg⟩ := List.mem_flatMap.mp h
        simp only [groupEvents, List.mem_map] at hg
        obtain ⟨g, _, rfl⟩ := hg
        rfl
      · exact hnd2 e h
      · exact hnd3 e h

theorem createTestContracts_events (o : Options) (s : Chain) :
    ∃ t, (createTestContracts o s).state.events = s.events ++ t := by
  unfold createTestContracts
  by_cases h : truthy (o.get "deployTestTokens") = false
  · simp only [h, if_true]
    exact ⟨[], by simp [Res.state]⟩
  · simp only [h, if_false]
    exact deployByTypeGo_events o _ [] s

theorem configureOffchainVoting_events (o : Options) (extensions : JSMap Deployed) (s : Chain) :
    ∃ t, (configureOffchainVoting o extensions s).state.events = s.events ++ t := by
  unfold configureOffchainVoting
  by_cases h : truthy (o.get "offchainVoting") = false
  · simp only [h, if_true]
    exact ⟨[], by simp [Res.state]⟩
  · simp only [h, if_false]
    obtain ⟨t1, ht1⟩ := deployFunction_events (o.get "SnapshotProposalContract")
      (some [o.get "chainId"]) (emit s (.getAdapterAddress (sha3 votingAdapterId)))
    cases h1 : deployFunction (o.get "SnapshotProposalContract") (some [o.get "chainId"])
        (emit s (.getAdapterAddress (sha3 votingAdapterId))) with
    | err e s2 =>
      rw [h1] at ht1
      simp only [Res.state] at ht1
      exact ⟨[.getAdapterAddress (sha3 votingAdapterId)] ++ t1,
        by simp [Res.state, ht1, emit_events]⟩
    | ok snap s2 =>
      rw [h1] at ht1
      simp only [Res.state] at ht1
      obtain ⟨t2, ht2⟩ := deployFunction_events (o.get "OffchainVotingHashContract")
        (some [.addr snap.address]) s2
      cases h2 : deployFunction (o.get "OffchainVotingHashContract")
          (some [.addr snap.address]) s2 with
      | err e s3 =>
        rw [h2] at ht2
        simp only [Res.state] at ht2
        exact ⟨[.getAdapterAddress (sha3 votingAdapterId)] ++ t1 ++ t2,
          by simp [Res.state, h1, h2, ht2, ht1, emit_events, List.append_assoc]⟩
      | ok hashC s3 =>
        rw [h2] at ht2
        simp only [Res.state] at ht2
        obtain ⟨t3, ht3⟩ := deployFunction_events (o.get "KickBadReporterAdapter") none s3
        cases h3 : deployFunction (o.get "KickBadReporterAdapter") none s3 with
        | err e s4 =>
          rw [h3] at ht3
          simp only [Res.state] at ht3
          exact ⟨[.getAdapterAddress (sha3 votingAdapterId)] ++ t1 ++ t2 ++ t3,
            by simp [Res.state, h1, h2, h3, ht3, ht2, ht1, emit_events, List.append_assoc]⟩
        | ok kick s4 =>
          rw [h3] at ht3
          simp only [Res.state] at ht3
          obtain ⟨t4, ht4⟩ := deployFunction_events (o.get "OffchainVotingContract")
            (some [currentVotingAdapterAddress, .addr hashC.address, .addr snap.address,
                   .addr kick.address, o.get "offchainAdmin"]) s4
          cases h4 : deployFunction (o.get "OffchainVotingContract")
              (some [currentVotingAdapterAddress, .addr hashC.address, .addr snap.address,
                     .addr kick.address, o.get "offchainAdmin"]) s4 with
          | err e s5 =>
            rw [h4] at ht4
            simp only [Res.state] at ht4
            exact ⟨[.getAdapterAddress (sha3 votingAdapterId)] ++ t1 ++ t2 ++ t3 ++ t4,
              by simp [Res.state, h1, h2, h3, h4, ht4, ht3, ht2, ht1, emit_events, List.append_assoc]⟩
          | ok ov s5 =>
            rw [h4] at ht4
            simp only [Res.state] at ht4
            cases hb : extensions.lookup "bankExt" with
            | none =>
              exact ⟨[.getAdapterAddress (sha3 votingAdapterId)] ++ t1 ++ t2 ++ t3 ++ t4 ++
                  [.updateAdapter ov.configs.id],
                by simp [Res.state, h1, h2, h3, h4, hb, ht4, ht3, ht2, ht1, emit_events, List.append_assoc]⟩
            | some bankExt =>
              exact ⟨[.getAdapterAddress (sha3 votingAdapterId)] ++ t1 ++ t2 ++ t3 ++ t4 ++
                  [.updateAdapter ov.configs.id,
                   .setAclToExtensionForAdapter bankExt.address ov.address,
                   .offchainConfigureDao ov.configs.id],
                by simp [Res.state, h1, h2, h3, h4, hb, ht4, ht3, ht2, ht1, emit_events, List.append_assoc]⟩

/-- Successful runs of `deployDao` decompose into the successful pipeline of
their phases, in source order: clone, factories, extensions, adapters, DAO
configuration, off-chain voting, utility contracts, test contracts,
optional finalize; the returned aggregate is assembled exactly from the
phase results. -/
theorem deployDao_decomp (extIds : List String) (o : Options) (s : Chain) (r : DeployedDao)
    (sEnd : Chain) (h : deployDao extIds o s = .ok r sEnd) :
    ∃ dao daoFactory s1 factories s2 extensions s3 adapters s4 s5 vh s6 utils s7 tests s8,
      cloneDao o (if truthy (o.get "daoName") then o.get "daoName" else .str "test-dao") s
        = .ok (dao, daoFactory) s1 ∧
      createFactories (extendedOptions o dao.address) s1 = .ok factories s2 ∧
      createExtensions (extendedOptions o dao.address) factories s2 = .ok extensions s3 ∧
      createAdapters (extendedOptions o dao.address) s3 = .ok adapters s4 ∧
      configureDao extIds (extendedOptions o dao.address) extensions adapters s4 = .ok () s5 ∧
      configureOffchainVoting (extendedOptions o dao.address) extensions s5 = .ok vh s6 ∧
      createUtilContracts (extendedOptions o dao.address) s6 = .ok utils s7 ∧
      createTestContracts (extendedOptions o dao.address) s7 = .ok tests s8 ∧
      r = ⟨dao,
           (match vh.offchainVoting with
            | some ov => jsInsert adapters ov.configs.aliasName ov
            | none => adapters),
           extensions, tests, utils, vh, jsInsert factories "daoFactory" daoFactory⟩ ∧
      sEnd = (if truthy ((extendedOptions o dao.address).get "finalize")
              then emit s8 .finalizeDao else s8) := by
  simp only [deployDao] at h
  cases hc : cloneDao o (if truthy (o.get "daoName") then o.get "daoName" else .str "test-dao") s with
  | err e s1 =>
    simp only [hc] at h
    exact Res.noConfusion h
  | ok daopair s1 =>
    obtain ⟨dao, daoFactory⟩ := daopair
    simp only [hc] at h
    cases hf : createFactories (extendedOptions o dao.address) s1 with
    | err e s2 =>
      simp only [hf] at h
      exact Res.noConfusion h
    | ok factories s2 =>
      simp only [hf] at h
      cases he : createExtensions (extendedOptions o dao.address) factories s2 with
      | err e s3 =>
        simp only [he] at h
        exact Res.noConfusion h
      | ok extensions s3 =>
        simp only [he] at h
        cases ha : createAdapters (extendedOptions o dao.address) s3 with
        | err e s4 =>
          simp only [ha] at h
          exact Res.noConfusion h
        | ok adapters s4 =>
          simp only [ha] at h
          cases hd : configureDao extIds (extendedOptions o dao.address) extensions adapters s4 with
          | err e s5 =>
            simp only [hd] at h
            exact Res.noConfusion h
          | ok u s5 =>
            cases u
            simp only [hd] at h
            cases hv : configureOffchainVoting (extendedOptions o dao.address) extensions s5 with
            | err e s6 =>
              simp only [hv] at h
              exact Res.noConfusion h
            | ok vh s6 =>
              simp only [hv] at h
              cases hu : createUtilContracts (extendedOptions o dao.address) s6 with
              | err e s7 =>
                simp only [hu] at h
                exact Res.noConfusion h
              | ok utils s7 =>
                simp only [hu] at h
                cases ht : createTestContracts (extendedOptions o dao.address) s7 with
                | err e s8 =>
                  simp only [ht] at h
                  exact Res.noConfusion h
                | ok tests s8 =>
                  simp only [ht] at h
                  refine ⟨dao, daoFactory, s1, factories, s2, extensions, s3, adapters, s4, s5,
                    vh, s6, utils, s7, tests, s8, rfl, hf, he, ha, hd, hv, hu, ht, ?_, ?_⟩
                  · cases h
                    rfl
                  · cases h
                    rfl

/-! ### Argument resolution lemmas -/

theorem resolveArgs_ok_of_not_nullish (o : Options) (mk : String → Err) :
    ∀ (args : List String), (∀ b ∈ args, nullish (o.get b) = false) →
    resolveArgs o mk args = .ok (args.map o.get) := by
  intro args
  induction args with
  | nil => intro _; rfl
  | cons a rest ih =>
    intro h
    have ha := h a (List.mem_cons_self a rest)
    simp only [resolveArgs, ha, Bool.false_eq_true, if_false]
    rw [ih (fun b hb => h b (List.mem_cons_of_mem a hb))]
    rfl

theorem resolveArgs_first_missing (o : Options) (mk : String → Err) :
    ∀ (pre : List String) (a : String) (post : List String),
    (∀ b ∈ pre, nullish (o.get b) = false) → nullish (o.get a) = true →
    resolveArgs o mk (pre ++ a :: post) = .error (mk a) := by
  intro pre
  induction pre with
  | nil =>
    intro a post _ ha
    simp [resolveArgs, ha]
  | cons b rest ih =>
    intro a post h ha
    have hb := h b (List.mem_cons_self b rest)
    simp only [List.cons_append, resolveArgs, hb, Bool.false_eq_true, if_false]
    have hih := ih a post (fun x hx => h x (List.mem_cons_of_mem b hx)) ha
    simp only [List.append_eq]
    rw [hih]

theorem deployFunction_err_state (v : JSVal) (args : Option (List JSVal)) (s : Chain)
    (e : Err) (s2 : Chain) (h : deployFunction v args s = .err e s2) : s2 = s := by
  cases v <;> simp only [deployFunction] at h <;> first
    | exact Res.noConfusion h
    | (injection h with _ h2; exact h2.symm)

theorem deployContract_err_state (c : ContractConfig) (o : Options) (s : Chain)
    (e : Err) (s2 : Chain) (h : deployContract c o s = .err e s2) : s2 = s := by
  unfold deployContract at h
  by_cases h1 : truthy (o.get c.name) = false
  · simp only [h1, if_true] at h
    injection h with _ h2
    exact h2.symm
  · simp only [h1, if_false] at h
    by_cases h2 : c.deploymentArgs.isEmpty = true
    · simp only [h2, if_true] at h
      exact deployFunction_err_state _ _ _ _ _ h
    · simp only [h2, Bool.false_eq_true, if_false] at h
      cases hr : resolveArgs o (fun a => .missingArgument a c.name) c.deploymentArgs with
      | error e2 =>
        simp only [hr] at h
        injection h with _ h3
        exact h3.symm
      | ok args =>
        simp only [hr] at h
        exact deployFunction_err_state _ _ _ _ _ h

/-! ### Claims -/

/-- Claim C8: `getNetworkDetails` performs exact-match lookup over the
static network table: every registered name returns its `{name, chainId}`
row, and every unregistered name returns `none` (the model of `undefined`)
without raising and without fuzzy matching. -/
theorem getNetworkDetails_exact_lookup :
    (∀ e ∈ networks, getNetworkDetails e.name = some e) ∧
    (∀ n : String, n ∉ networks.map NetworkDetail.name → getNetworkDetails n = none) := by
  constructor
  · decide
  · intro n hn
    unfold getNetworkDetails
    rw [List.find?_eq_none]
    intro x hx
    simp only [beq_iff_eq]
    intro hxn
    exact hn (hxn ▸ List.mem_map_of_mem NetworkDetail.name hx)

/-- Witness for C8 at the registered name `"ganache"` and the unregistered
name `"nosuchnet"`. -/
theorem getNetworkDetails_exact_lookup_witness :
    getNetworkDetails "ganache" = some ⟨"ganache", 1337⟩ ∧
    getNetworkDetails "nosuchnet" = none :=
  ⟨getNetworkDetails_exact_lookup.1 ⟨"ganache", 1337⟩ (by decide),
   getNetworkDetails_exact_lookup.2 "nosuchnet" (by decide)⟩

/-- Claim C5: whenever the `offchainVoting` flag reads falsy (in particular
when it is unset), `configureOffchainVoting` returns the all-null helpers
result and leaves the chain state untouched — it issues no deployment, no
adapter update, no ACL grant and no configuration call — regardless of
every other option value. -/
theorem configureOffchainVoting_disabled (o : Options) (extensions : JSMap Deployed) (s : Chain)
    (h : truthy (o.get "offchainVoting") = false) :
    configureOffchainVoting o extensions s = .ok ⟨none, none, none⟩ s := by
  unfold configureOffchainVoting
  simp [h]

/-- Witness for C5: an options bag with every voting artifact present and
other values set, but the flag unset. -/
theorem configureOffchainVoting_disabled_witness :
    configureOffchainVoting
      ⟨[("SnapshotProposalContract",
         .artifact ⟨"sp", "SnapshotProposalContract", "sp", .Core, true, false, [], none, ⟨none, []⟩, []⟩),
        ("chainId", .num 1337), ("offchainAdmin", .str "0xadmin"), ("finalize", .bool true)], []⟩
      [("bankExt", ⟨⟨"bank", "BankExtension", "bankExt", .Extension, true, false, [], none, ⟨none, []⟩, []⟩, 7⟩)]
      ⟨42, [.finalizeDao]⟩
      = .ok ⟨none, none, none⟩ ⟨42, [.finalizeDao]⟩ :=
  configureOffchainVoting_disabled _ _ _ (by decide)

/-- Claim C2: `deployContract` fails naming the descriptor's contract when
the contract handle is absent from the options bag; with a non-empty
declared argument list it resolves each argument by name and fails naming
both the first missing argument and the descriptor's name; when all
arguments resolve it invokes the deploy primitive with the resolved ordered
list, and with no declared arguments it invokes it with no argument list;
and it never records a deployment when it fails (the chain state of every
failure equals the input state). -/
theorem deployContract_contract_spec (c : ContractConfig) (o : Options) (s : Chain) :
    (o.vals.lookup c.name = none →
      deployContract c o s = .err (.contractNotFound c.name) s) ∧
    (∀ pre a post, c.deploymentArgs = pre ++ a :: post →
      truthy (o.get c.name) = true →
      (∀ b ∈ pre, nullish (o.get b) = false) →
      nullish (o.get a) = true →
      deployContract c o s = .err (.missingArgument a c.name) s) ∧
    (∀ acfg, o.get c.name = .artifact acfg →
      c.deploymentArgs ≠ [] →
      (∀ b ∈ c.deploymentArgs, nullish (o.get b) = false) →
      deployContract c o s = .ok ⟨acfg, s.nextAddr⟩
        { nextAddr := s.nextAddr + 1,
          events := s.events ++ [.deploy acfg.name (some (c.deploymentArgs.map o.get))] }) ∧
    (∀ acfg, o.get c.name = .artifact acfg →
      c.deploymentArgs = [] →
      deployContract c o s = .ok ⟨acfg, s.nextAddr⟩
        { nextAddr := s.nextAddr + 1, events := s.events ++ [.deploy acfg.name none] }) ∧
    (∀ e s2, deployContract c o s = .err e s2 → s2 = s) := by
  refine ⟨?_, ?_, ?_, ?_, fun e s2 h => deployContract_err_state c o s e s2 h⟩
  · intro h
    have hget : o.get c.name = .undefined := by simp [Options.get, h]
    unfold deployContract
    simp [hget, truthy]
  · intro pre a post hargs htr hpre hmiss
    unfold deployContract
    simp only [htr, Bool.true_eq_false, if_false]
    have hne : (pre ++ a :: post).isEmpty = false := by cases pre <;> simp
    simp only [hargs, hne, Bool.false_eq_true, if_false]
    rw [resolveArgs_first_missing o _ pre a post hpre hmiss]
  · intro acfg hart hne hres
    unfold deployContract
    have htr : truthy (o.get c.name) = true := by rw [hart]; rfl
    have hemp : c.deploymentArgs.isEmpty = false := by
      cases hd : c.deploymentArgs with
      | nil => exact absurd hd hne
      | cons x xs => simp
    simp only [htr, Bool.true_eq_false, if_false, hemp, Bool.false_eq_true]
    rw [resolveArgs_ok_of_not_nullish o _ c.deploymentArgs hres]
    simp [hart, deployFunction]
  · intro acfg hart hemp
    unfold deployContract
    have htr : truthy (o.get c.name) = true := by rw [hart]; rfl
    simp only [htr, Bool.true_eq_false, if_false, hemp]
    simp [hart, deployFunction]

def c2cfg : ContractConfig :=
  ⟨"c2-id", "C2Contract", "c2Alias", .Adapter, true, false, ["x", "y"], none, ⟨none, []⟩, []⟩

def c2opts : Options := ⟨[("C2Contract", .artifact c2cfg), ("x", .num 1)], [c2cfg]⟩

/-- Witness for C2: a descriptor declaring arguments `x` and `y` against a
bag holding only `x` fails naming `y` and the descriptor, leaving the chain
untouched. -/
theorem deployContract_contract_spec_witness :
    deployContract c2cfg c2opts ⟨0, []⟩ = .err (.missingArgument "y" "C2Contract") ⟨0, []⟩ :=
  (deployContract_contract_spec c2cfg c2opts ⟨0, []⟩).2.1 ["x"] "y" [] rfl (by decide)
    (by decide) (by decide)

/-- Claim C9: `deployContract` treats a declared deployment argument as
missing only when its bag value is `null` or `undefined`, so present falsy
values (`0`, `false`, the empty string) are accepted and passed through in
order; by contrast the contract-handle lookup treats every falsy value as
absent and raises the not-found error. -/
theorem deployContract_nullish_vs_falsy (c : ContractConfig) (o : Options) (s : Chain) :
    (∀ acfg, o.get c.name = .artifact acfg →
      c.deploymentArgs ≠ [] →
      (∀ b ∈ c.deploymentArgs, nullish (o.get b) = false) →
      deployContract c o s = .ok ⟨acfg, s.nextAddr⟩
        { nextAddr := s.nextAddr + 1,
          events := s.events ++ [.deploy acfg.name (some (c.deploymentArgs.map o.get))] }) ∧
    (truthy (o.get c.name) = false →
      deployContract c o s = .err (.contractNotFound c.name) s) := by
  constructor
  · intro acfg hart hne hres
    unfold deployContract
    have htr : truthy (o.get c.name) = true := by rw [hart]; rfl
    have hemp : c.deploymentArgs.isEmpty = false := by
      cases hd : c.deploymentArgs with
      | nil => exact absurd hd hne
      | cons x xs => simp
    simp only [htr, Bool.true_eq_false, if_false, hemp, Bool.false_eq_true]
    rw [resolveArgs_ok_of_not_nullish o _ c.deploymentArgs hres]
    simp [hart, deployFunction]
  · intro h
    unfold deployContract
    simp [h]

def c9cfg : ContractConfig :=
  ⟨"c9-id", "C9Contract", "c9Alias", .Adapter, true, false, ["z0", "zf", "zs"], none,
   ⟨none, []⟩, []⟩

def c9opts : Options :=
  ⟨[("C9Contract", .artifact c9cfg), ("z0", .num 0), ("zf", .bool false), ("zs", .str "")],
   [c9cfg]⟩

def c9cfgB : ContractConfig :=
  ⟨"c9b-id", "C9B", "c9bAlias", .Adapter, true, false, [], none, ⟨none, []⟩, []⟩

def c9optsB : Options := ⟨[("C9B", .num 0)], [c9cfgB]⟩

/-- Witness for C9: the falsy-but-present values `0`, `false` and `""` are
accepted as constructor arguments and passed through in order, while a
falsy-but-present contract handle (`0`) raises the not-found error. -/
theorem deployContract_nullish_vs_falsy_witness :
    deployContract c9cfg c9opts ⟨0, []⟩ =
      .ok ⟨c9cfg, 0⟩ ⟨1, [.deploy "C9Contract" (some [.num 0, .bool false, .str ""])]⟩ ∧
    deployContract c9cfgB c9optsB ⟨0, []⟩ = .err (.contractNotFound "C9B") ⟨0, []⟩ :=
  ⟨(deployContract_nullish_vs_falsy c9cfg c9opts ⟨0, []⟩).1 c9cfg (by decide) (by decide)
     (by decide),
   (deployContract_nullish_vs_falsy c9cfgB c9optsB ⟨0, []⟩).2 (by decide)⟩

/-- Claim C6: during DAO parameter configuration every parameter name is
resolved first against the known extension identifiers — yielding the
deployed extension's address, or failing with an error carrying the
parameter name and the owning contract's name when no such extension was
deployed — and otherwise against the options bag, failing with the same
error data when the bag value is falsy; and the configuration calls are
issued group by group per adapter and adapter by adapter in order (the
trace delta is the in-order concatenation of each adapter's per-group
configuration calls). -/
theorem readConfigValue_resolution (extIds : List String) (extensions : JSMap Deployed)
    (o : Options) (n cn : String) :
    (∀ ext, extIds.contains n = true →
      (extensions.map (fun p => p.2)).find? (fun e => e.configs.id == n) = some ext →
      readConfigValue extIds extensions o n cn = .ok (.addr ext.address)) ∧
    (extIds.contains n = true →
      (extensions.map (fun p => p.2)).find? (fun e => e.configs.id == n) = none →
      readConfigValue extIds extensions o n cn = .error (.daoParamError n cn)) ∧
    (extIds.contains n = false → truthy (o.get n) = true →
      readConfigValue extIds extensions o n cn = .ok (o.get n)) ∧
    (extIds.contains n = false → truthy (o.get n) = false →
      readConfigValue extIds extensions o n cn = .error (.daoParamError n cn)) ∧
    (∀ (l : List Deployed) (s s2 : Chain),
      configureParamsGo extIds extensions o l s = .ok () s2 →
      s2.events = s.events ++ l.flatMap (groupEvents extIds extensions o)) := by
  refine ⟨?_, ?_, ?_, ?_, fun l s s2 h => configureParamsGo_ok_events extIds extensions o l s s2 h⟩
  · intro ext hc hf
    unfold readConfigValue
    rw [if_pos hc, hf]
  · intro hc hf
    unfold readConfigValue
    rw [if_pos hc, hf]
  · intro hc htr
    unfold readConfigValue
    rw [if_neg (by simpa using hc), if_neg (by simp [htr])]
  · intro hc htr
    unfold readConfigValue
    rw [if_neg (by simpa using hc), if_pos htr]

def c6bankCfg : ContractConfig :=
  ⟨"bank", "BankExtension", "bankExt", .Extension, true, false, [], none, ⟨none, []⟩, []⟩

def c6adCfg : ContractConfig :=
  ⟨"c6-ad", "C6Adapter", "c6Ad", .Adapter, true, false, [], none, ⟨none, []⟩,
   [["bank", "param1"]]⟩

def c6opts : Options := ⟨[("param1", .num 5)], [c6bankCfg, c6adCfg]⟩

/-- Witness for C6: the name `bank` resolves to the deployed extension's
address, the name `param1` resolves from the options bag, and the single
configuration group of the single adapter emits one in-order configuration
call carrying both resolved values. -/
theorem readConfigValue_resolution_witness :
    readConfigValue ["bank"] [("bankExt", ⟨c6bankCfg, 7⟩)] c6opts "bank" "C6Adapter"
      = .ok (.addr 7) ∧
    readConfigValue ["bank"] [("bankExt", ⟨c6bankCfg, 7⟩)] c6opts "param1" "C6Adapter"
      = .ok (.num 5) ∧
    (⟨0, [.addAdapters []]⟩ : Chain).events ++
        [⟨c6adCfg, 9⟩].flatMap (groupEvents ["bank"] [("bankExt", ⟨c6bankCfg, 7⟩)] c6opts)
      = [.addAdapters [], .configureDaoCall "C6Adapter" [.addr 7, .num 5]] := by
  refine ⟨(readConfigValue_resolution ["bank"] [("bankExt", ⟨c6bankCfg, 7⟩)] c6opts "bank"
      "C6Adapter").1 ⟨c6bankCfg, 7⟩ (by decide) (by decide), ?_, ?_⟩
  · have h := (readConfigValue_resolution ["bank"] [("bankExt", ⟨c6bankCfg, 7⟩)] c6opts "param1"
      "C6Adapter").2.2.1 (by decide) (by decide)
    rw [h]
    rfl
  · have h := (readConfigValue_resolution ["bank"] [("bankExt", ⟨c6bankCfg, 7⟩)] c6opts "param1"
      "C6Adapter").2.2.2.2 [⟨c6adCfg, 9⟩] ⟨0, [.addAdapters []]⟩
      ⟨0, [.addAdapters [], .configureDaoCall "C6Adapter" [.addr 7, .num 5]]⟩ (by decide)
    rw [← h]

/-- The runtime options bag matches the configuration table: every
descriptor's named artifact is present and embeds that same descriptor
(which is what `embedConfigs` arranges in the real deployment setup). -/
def artifactsWellFormed (o : Options) : Prop :=
  ∀ c ∈ o.contractConfigs, o.get c.name = .artifact c

theorem mem_of_enabledOfType {o : Options} {t : ContractType} {c : ContractConfig}
    (h : c ∈ enabledOfType o t) : c ∈ o.contractConfigs := by
  simp only [enabledOfType, List.mem_filter] at h
  exact h.1.1.1

theorem genExt_mem {o : Options} {gid : Option String} {extCfg : ContractConfig}
    (h : genExt o gid = some extCfg) : extCfg ∈ o.contractConfigs :=
  List.mem_of_find?_eq_some h

theorem createFactoriesGo_link_missing (o : Options)
    (hWF : artifactsWellFormed o)
    (hND : (o.contractConfigs.map ContractConfig.name).Nodup) :
    ∀ (l : List ContractConfig), (∀ x ∈ l, x ∈ o.contractConfigs) →
    ∀ c ∈ l, genExt o c.generatesExtensionId = none →
    ∀ (m : JSMap Deployed) (s : Chain),
    ∃ gid s2, createFactoriesGo o l m s = .err (.missingExtensionConfig gid) s2 ∧
      ∀ ev ∈ s2.events, ev ∈ s.events ∨ ∀ args, ev ≠ .deploy c.name args := by
  intro l
  induction l with
  | nil =>
    intro _ c hc
    exact absurd hc (List.not_mem_nil c)
  | cons h rest ih =>
    intro hsub c hc hlink m s
    have hWFh : o.get h.name = .artifact h := hWF h (hsub h (List.mem_cons_self h rest))
    have htr : truthy (o.get h.name) = true := by rw [hWFh]; rfl
    simp only [createFactoriesGo, htr, Bool.true_eq_false, if_false]
    cases hg : genExt o h.generatesExtensionId with
    | none =>
      exact ⟨h.generatesExtensionId, s, rfl, fun ev hev => Or.inl hev⟩
    | some eh =>
      have hne : h ≠ c := by
        intro he
        rw [he, hlink] at hg
        exact Option.noConfusion hg
      have hcrest : c ∈ rest := by
        rcases List.mem_cons.mp hc with he | hr
        · exact absurd he.symm hne
        · exact hr
      have hWFe : o.get eh.name = .artifact eh := hWF eh (genExt_mem hg)
      have htre : truthy (o.get eh.name) = true := by rw [hWFe]; rfl
      simp only [htre, truthy, Bool.true_eq_false, if_false, hWFh, hWFe, deployFunction]
      obtain ⟨gid, s2, herr, hev⟩ :=
        ih (fun x hx => hsub x (List.mem_cons_of_mem h hx)) c hcrest hlink
          (jsInsert m h.aliasName ⟨h, s.nextAddr⟩)
          ⟨s.nextAddr + 1, s.events ++ [.deploy h.name (some [.artifact eh])]⟩
      refine ⟨gid, s2, herr, fun ev hev2 => ?_⟩
      have hname : h.name ≠ c.name := by
        intro hn
        exact hne (List.inj_on_of_nodup_map hND (hsub h (List.mem_cons_self h rest))
          (hsub c hc) hn)
      rcases hev ev hev2 with hin | hne2
      · rcases List.mem_append.mp hin with hin2 | hin3
        · exact Or.inl hin2
        · refine Or.inr ?_
          intro args hcontra
          rw [List.mem_singleton.mp hin3] at hcontra
          injection hcontra with h1 h2
          exact hname h1
      · exact Or.inr hne2

theorem createFactoriesGo_link_deploys (o : Options) (hWF : artifactsWellFormed o) :
    ∀ (l : List ContractConfig), (∀ x ∈ l, x ∈ o.contractConfigs) →
    ∀ (m : JSMap Deployed) (s : Chain) (m2 : JSMap Deployed) (s2 : Chain),
    createFactoriesGo o l m s = .ok m2 s2 →
    ∀ c ∈ l, ∀ extCfg, genExt o c.generatesExtensionId = some extCfg →
    Event.deploy c.name (some [.artifact extCfg]) ∈ s2.events := by
  intro l
  induction l with
  | nil =>
    intro _ m s m2 s2 _ c hc
    exact absurd hc (List.not_mem_nil c)
  | cons h rest ih =>
    intro hsub m s m2 s2 hrun c hc extCfg hgc
    have hWFh : o.get h.name = .artifact h := hWF h (hsub h (List.mem_cons_self h rest))
    have htr : truthy (o.get h.name) = true := by rw [hWFh]; rfl
    simp only [createFactoriesGo, htr, Bool.true_eq_false, if_false] at hrun
    cases hg : genExt o h.generatesExtensionId with
    | none =>
      simp only [hg] at hrun
      exact Res.noConfusion hrun
    | some eh =>
      simp only [hg] at hrun
      have hWFe : o.get eh.name = .artifact eh := hWF eh (genExt_mem hg)
      have htre : truthy (o.get eh.name) = true := by rw [hWFe]; rfl
      simp only [htre, truthy, Bool.true_eq_false, if_false, hWFh, hWFe, deployFunction] at hrun
      rcases List.mem_cons.mp hc with he | hr
      · subst he
        rw [hgc] at hg
        injection hg with heq
        subst heq
        obtain ⟨t, ht⟩ := createFactoriesGo_events o rest
          (jsInsert m c.aliasName ⟨c, s.nextAddr⟩)
          ⟨s.nextAddr + 1, s.events ++ [.deploy c.name (some [.artifact extCfg])]⟩
        rw [hrun] at ht
        simp only [Res.state] at ht
        rw [ht]
        exact List.mem_append.mpr (Or.inl (List.mem_append.mpr (Or.inr
          (List.mem_singleton.mpr rfl))))
      · exact ih (fun x hx => hsub x (List.mem_cons_of_mem h hx)) _ _ _ _ hrun c hr extCfg hgc

/-- Claim C3: under a well-formed options bag (each descriptor's artifact
present and embedding that descriptor) with distinct descriptor names, an
enabled, non-skipped Factory descriptor whose `generatesExtensionId`
matches no descriptor id makes `createFactories` fail with the
missing-extension-config configuration error before any deployment call for
that factory is issued (no deploy event for its name is added to the
trace); and when the link resolves, a successful `createFactories` run
deploys that factory with exactly the resolved extension contract handle as
its single constructor argument. -/
theorem createFactories_link (o : Options) (s : Chain)
    (hWF : artifactsWellFormed o)
    (hND : (o.contractConfigs.map ContractConfig.name).Nodup) :
    (∀ c ∈ enabledOfType o .Factory, genExt o c.generatesExtensionId = none →
      ∃ gid s2, createFactories o s = .err (.missingExtensionConfig gid) s2 ∧
        ∀ ev ∈ s2.events, ev ∈ s.events ∨ ∀ args, ev ≠ .deploy c.name args) ∧
    (∀ m2 s2, createFactories o s = .ok m2 s2 →
      ∀ c ∈ enabledOfType o .Factory, ∀ extCfg, genExt o c.generatesExtensionId = some extCfg →
      Event.deploy c.name (some [.artifact extCfg]) ∈ s2.events) := by
  constructor
  · intro c hc hlink
    exact createFactoriesGo_link_missing o hWF hND (enabledOfType o .Factory)
      (fun x hx => mem_of_enabledOfType hx) c hc hlink [] s
  · intro m2 s2 hrun c hc extCfg hgc
    exact createFactoriesGo_link_deploys o hWF (enabledOfType o .Factory)
      (fun x hx => mem_of_enabledOfType hx) [] s m2 s2 hrun c hc extCfg hgc

def c3badCfg : ContractConfig :=
  ⟨"c3-bad", "C3BadFactory", "c3Bad", .Factory, true, false, [], some "no-such-ext",
   ⟨none, []⟩, []⟩

def c3opts : Options := ⟨[("C3BadFactory", .artifact c3badCfg)], [c3badCfg]⟩

/-- Witness for C3: a factory whose declared generated-extension id matches
no descriptor makes `createFactories` fail with the configuration error,
with no deployment call for that factory in the resulting trace. -/
theorem createFactories_link_witness :
    ∃ gid s2,
      createFactories c3opts ⟨0, []⟩ = .err (.missingExtensionConfig gid) s2 ∧
      ∀ ev ∈ s2.events, ev ∈ ([] : List Event) ∨ ∀ args, ev ≠ .deploy "C3BadFactory" args :=
  (createFactories_link c3opts ⟨0, []⟩ (by unfold artifactsWellFormed; decide) (by decide)).1
    c3badCfg (by decide) (by decide)

def c4utilCfg : ContractConfig :=
  ⟨"c4-util", "C4Util", "c4Util", .Util, true, false, [], none, ⟨none, []⟩, []⟩

def c4daoFacCfg : ContractConfig :=
  ⟨"c4-daofac", "DaoFactory", "c4DaoFac", .Core, true, false, [], none, ⟨none, []⟩, []⟩

def c4daoRegCfg : ContractConfig :=
  ⟨"c4-daoreg", "DaoRegistry", "c4DaoReg", .Core, true, false, [], none, ⟨none, []⟩, []⟩

def c4opts : Options :=
  ⟨[("DaoFactory", .artifact c4daoFacCfg), ("DaoRegistry", .artifact c4daoRegCfg),
    ("C4Util", .artifact c4utilCfg)], [c4utilCfg]⟩

/-- Counterexample to claim C4 as stated: a table with one enabled,
non-skipped Util descriptor.  `deployDao` completes, yet its trace holds
the batched access-control call (`addAdapters`, the start of the
access-configuration step) at position 3 and the deployment call of the
Util contract at position 4 — a phase-orchestrator deployment call issued
after the access-configuration step began, because utility and test
contracts are deployed only after `configureDao` (source lines 285-289). -/
theorem deployDao_access_order_counterexample :
    ∃ r s2, deployDao [] c4opts ⟨0, []⟩ = .ok r s2 ∧
      c4utilCfg ∈ c4opts.contractConfigs ∧ c4utilCfg.ctype = .Util ∧
      c4utilCfg.enabled = true ∧ c4utilCfg.skipAutoDeploy = false ∧
      s2.events[3]? = some (.addAdapters []) ∧
      s2.events[4]? = some (.deploy "C4Util" none) := by
  refine ⟨_, _, rfl, ?_, rfl, rfl, rfl, rfl, rfl⟩
  decide

/-- Claim C4 (amended): in every successful `deployDao` run the
access-configuration step (`configureDao`) executes after the factory,
extension and adapter phases but before the off-chain voting installer and
before the utility- and test-contract phases; `configureDao` itself issues
no deployment or creation call (its trace delta `tc` is deployment-free),
while every event recorded after it (the delta `tpost`, covering the
off-chain voting, utility, test and finalize stages) comes later in the
trace. -/
theorem deployDao_access_position (extIds : List String) (o : Options) (s : Chain)
    (r : DeployedDao) (sEnd : Chain) (h : deployDao extIds o s = .ok r sEnd) :
    ∃ dao daoFactory s1 factories s2 extensions s3 adapters s4 s5 vh s6 utils s7 tests s8
      tc tpost,
      cloneDao o (if truthy (o.get "daoName") then o.get "daoName" else .str "test-dao") s
        = .ok (dao, daoFactory) s1 ∧
      createFactories (extendedOptions o dao.address) s1 = .ok factories s2 ∧
      createExtensions (extendedOptions o dao.address) factories s2 = .ok extensions s3 ∧
      createAdapters (extendedOptions o dao.address) s3 = .ok adapters s4 ∧
      configureDao extIds (extendedOptions o dao.address) extensions adapters s4 = .ok () s5 ∧
      s5.events = s4.events ++ tc ∧
      (∀ e ∈ tc, isDeployment e = false) ∧
      configureOffchainVoting (extendedOptions o dao.address) extensions s5 = .ok vh s6 ∧
      createUtilContracts (extendedOptions o dao.address) s6 = .ok utils s7 ∧
      createTestContracts (extendedOptions o dao.address) s7 = .ok tests s8 ∧
      sEnd.events = s5.events ++ tpost := by
  obtain ⟨dao, daoFactory, s1, factories, s2, extensions, s3, adapters, s4, s5, vh, s6,
    utils, s7, tests, s8, hc, hf, he, ha, hd, hv, hu, htt, hr, hs⟩ :=
    deployDao_decomp extIds o s r sEnd h
  obtain ⟨tc, htc, hnd⟩ := configureDao_ok_events extIds _ extensions adapters s4 s5 hd
  obtain ⟨t6, ht6⟩ := configureOffchainVoting_events (extendedOptions o dao.address) extensions s5
  rw [hv] at ht6
  simp only [Res.state] at ht6
  obtain ⟨t7, ht7⟩ := deployByTypeGo_events (extendedOptions o dao.address)
    (enabledOfType (extendedOptions o dao.address) .Util) [] s6
  rw [show deployByTypeGo (extendedOptions o dao.address)
      (enabledOfType (extendedOptions o dao.address) .Util) [] s6
      = createUtilContracts (extendedOptions o dao.address) s6 from rfl, hu] at ht7
  simp only [Res.state] at ht7
  obtain ⟨t8, ht8⟩ := createTestContracts_events (extendedOptions o dao.address) s7
  rw [htt] at ht8
  simp only [Res.state] at ht8
  refine ⟨dao, daoFactory, s1, factories, s2, extensions, s3, adapters, s4, s5, vh, s6,
    utils, s7, tests, s8, tc, t6 ++ t7 ++ t8 ++
      (if truthy ((extendedOptions o dao.address).get "finalize")
       then [Event.finalizeDao] else []),
    hc, hf, he, ha, hd, htc, hnd, hv, hu, htt, ?_⟩
  have hfin : sEnd.events = s8.events ++
      (if truthy ((extendedOptions o dao.address).get "finalize")
       then [Event.finalizeDao] else []) := by
    rw [hs]
    by_cases hb : truthy ((extendedOptions o dao.address).get "finalize") = true
    · simp [hb, emit_events]
    · simp [eq_false_of_ne_true hb]
  rw [hfin, ht8, ht7, ht6]
  simp [List.append_assoc]

/-- Witness for the amended C4: on the concrete Util-descriptor table the
pipeline decomposes as stated, with a deployment-free access-configuration
delta followed by the post-configuration stages. -/
theorem deployDao_access_position_witness :
    ∃ r sEnd, deployDao [] c4opts ⟨0, []⟩ = .ok r sEnd ∧
      ∃ dao daoFactory s1 factories s2 extensions s3 adapters s4 s5 vh s6 utils s7 tests s8
        tc tpost,
        cloneDao c4opts (if truthy (c4opts.get "daoName") then c4opts.get "daoName"
          else .str "test-dao") ⟨0, []⟩ = .ok (dao, daoFactory) s1 ∧
        createFactories (extendedOptions c4opts dao.address) s1 = .ok factories s2 ∧
        createExtensions (extendedOptions c4opts dao.address) factories s2 = .ok extensions s3 ∧
        createAdapters (extendedOptions c4opts dao.address) s3 = .ok adapters s4 ∧
        configureDao [] (extendedOptions c4opts dao.address) extensions adapters s4
          = .ok () s5 ∧
        s5.events = s4.events ++ tc ∧
        (∀ e ∈ tc, isDeployment e = false) ∧
        configureOffchainVoting (extendedOptions c4opts dao.address) extensions s5
          = .ok vh s6 ∧
        createUtilContracts (extendedOptions c4opts dao.address) s6 = .ok utils s7 ∧
        createTestContracts (extendedOptions c4opts dao.address) s7 = .ok tests s8 ∧
        sEnd.events = s5.events ++ tpost :=
  ⟨_, _, rfl, deployDao_access_position [] c4opts ⟨0, []⟩ _ _ rfl⟩

theorem lookup_overwrite_ne {α : Type} (k k2 : String) (v : α) (h : k ≠ k2) :
    ∀ (m : JSMap α),
    (m.map (fun p => if p.1 = k2 then (k2, v) else p)).lookup k = m.lookup k := by
  intro m
  induction m with
  | nil => rfl
  | cons p t ih =>
    obtain ⟨pk, pv⟩ := p
    by_cases hp : pk = k2
    · rw [List.map_cons, if_pos hp, lookup_cons, lookup_cons]
      have h1 : (k == k2) = false := by simpa using h
      have h2 : (k == pk) = false := by rw [hp]; exact h1
      simp only [h1, h2, Bool.false_eq_true, if_false]
      exact ih
    · rw [List.map_cons, if_neg hp, lookup_cons, lookup_cons]
      by_cases hk : k = pk
      · simp [hk]
      · simp only [show (k == pk) = false from by simpa using hk, Bool.false_eq_true,
          if_false]
        exact ih

theorem lookup_append_ne {α : Type} (k k2 : String) (v : α) (h : k ≠ k2) :
    ∀ (m : JSMap α), (m ++ [(k2, v)]).lookup k = m.lookup k := by
  intro m
  induction m with
  | nil =>
    simp only [List.nil_append, lookup_cons, show (k == k2) = false from by simpa using h,
      Bool.false_eq_true, if_false]
  | cons p t ih =>
    obtain ⟨pk, pv⟩ := p
    rw [List.cons_append, lookup_cons, lookup_cons]
    by_cases hk : k = pk
    · simp [hk]
    · simp only [show (k == pk) = false from by simpa using hk, Bool.false_eq_true, if_false]
      exact ih

theorem jsInsert_lookup_ne {α : Type} (m : JSMap α) (k k2 : String) (v : α) (h : k ≠ k2) :
    (jsInsert m k2 v).lookup k = m.lookup k := by
  unfold jsInsert
  by_cases hany : m.any (fun p => p.1 == k2) = true
  · simp only [hany, if_true]
    exact lookup_overwrite_ne k k2 v h m
  · simp only [eq_false_of_ne_true hany, Bool.false_eq_true, if_false]
    exact lookup_append_ne k k2 v h m

theorem extendedOptions_get_other (o : Options) (a : Nat) (k : String)
    (h1 : k ≠ "daoAddress") (h2 : k ≠ "unitTokenToMint") (h3 : k ≠ "lootTokenToMint") :
    (extendedOptions o a).get k = o.get k := by
  unfold extendedOptions Options.get
  rw [jsInsert_lookup_ne _ _ _ _ h3, jsInsert_lookup_ne _ _ _ _ h2,
    jsInsert_lookup_ne _ _ _ _ h1]

theorem configureOffchainVoting_enabled_some (o : Options) (exts : JSMap Deployed) (s : Chain)
    (vh : VotingHelpers) (s2 : Chain)
    (hflag : truthy (o.get "offchainVoting") = true)
    (h : configureOffchainVoting o exts s = .ok vh s2) :
    ∃ ov, vh.offchainVoting = some ov := by
  unfold configureOffchainVoting at h
  simp only [hflag, Bool.true_eq_false, if_false] at h
  cases h1 : deployFunction (o.get "SnapshotProposalContract") (some [o.get "chainId"])
      (emit s (.getAdapterAddress (sha3 votingAdapterId))) with
  | err e sx =>
    simp only [h1] at h
    exact Res.noConfusion h
  | ok snap sx =>
    simp only [h1] at h
    cases h2 : deployFunction (o.get "OffchainVotingHashContract")
        (some [.addr snap.address]) sx with
    | err e sy =>
      simp only [h2] at h
      exact Res.noConfusion h
    | ok hashC sy =>
      simp only [h2] at h
      cases h3 : deployFunction (o.get "KickBadReporterAdapter") none sy with
      | err e sz =>
        simp only [h3] at h
        exact Res.noConfusion h
      | ok kick sz =>
        simp only [h3] at h
        cases h4 : deployFunction (o.get "OffchainVotingContract")
            (some [currentVotingAdapterAddress, .addr hashC.address, .addr snap.address,
                   .addr kick.address, o.get "offchainAdmin"]) sz with
        | err e sw =>
          simp only [h4] at h
          exact Res.noConfusion h
        | ok ov sw =>
          simp only [h4] at h
          cases hb : exts.lookup "bankExt" with
          | none =>
            simp only [hb] at h
            exact Res.noConfusion h
          | some bankExt =>
            simp only [hb] at h
            injection h with hvh _
            exact ⟨ov, by rw [← hvh]⟩

/-- Claim C10: when the off-chain voting feature is enabled and `deployDao`
completes, the deployed off-chain voting contract is inserted into the
returned adapters map under its own alias — overwriting (via the JS
object-assignment semantics of `jsInsert`) whatever adapter was registered
under that alias — so the adapters map is keyed by the voting contract's
alias and yields the voting contract on lookup. -/
theorem deployDao_offchain_into_adapters (extIds : List String) (o : Options) (s : Chain)
    (r : DeployedDao) (sEnd : Chain) (h : deployDao extIds o s = .ok r sEnd)
    (hflag : truthy (o.get "offchainVoting") = true) :
    ∃ ov adapters0, r.votingHelpers.offchainVoting = some ov ∧
      r.adapters = jsInsert adapters0 ov.configs.aliasName ov ∧
      r.adapters.lookup ov.configs.aliasName = some ov := by
  obtain ⟨dao, daoFactory, s1, factories, s2, extensions, s3, adapters, s4, s5, vh, s6,
    utils, s7, tests, s8, hc, hf, he, ha, hd, hv, hu, htt, hr, hs⟩ :=
    deployDao_decomp extIds o s r sEnd h
  have hflag2 : truthy ((extendedOptions o dao.address).get "offchainVoting") = true := by
    rw [extendedOptions_get_other o dao.address "offchainVoting" (by decide) (by decide)
      (by decide)]
    exact hflag
  obtain ⟨ov, hov⟩ := configureOffchainVoting_enabled_some _ extensions s5 vh s6 hflag2 hv
  refine ⟨ov, adapters, ?_, ?_, ?_⟩
  · rw [hr]
    exact hov
  · rw [hr]
    simp only [hov]
  · rw [hr]
    simp only [hov]
    exact jsInsert_lookup_self adapters ov.configs.aliasName ov

def c10bankCfg : ContractConfig :=
  ⟨"bank", "BankExtension", "bankExt", .Extension, true, false, [], none, ⟨none, []⟩, []⟩

def c10facCfg : ContractConfig :=
  ⟨"bank-fac", "BankFactory", "bankFac", .Factory, true, false, [], some "bank",
   ⟨none, []⟩, []⟩

def c10snapCfg : ContractConfig :=
  ⟨"snap", "SnapshotProposalContract", "snapAlias", .Core, true, false, [], none,
   ⟨none, []⟩, []⟩

def c10hashCfg : ContractConfig :=
  ⟨"ovhash", "OffchainVotingHashContract", "hashAlias", .Core, true, false, [], none,
   ⟨none, []⟩, []⟩

def c10kickCfg : ContractConfig :=
  ⟨"kick", "KickBadReporterAdapter", "kickAlias", .Core, true, false, [], none,
   ⟨none, []⟩, []⟩

/-- The off-chain voting contract's descriptor in the witness table is of
Test category and marked `skipAutoDeploy`, demonstrating that the adapters
map is not limited to enabled Adapter-category descriptors. -/
def c10ovCfg : ContractConfig :=
  ⟨"ov-id", "OffchainVotingContract", "c10ov", .Test, true, true, [], none, ⟨none, []⟩, []⟩

def c10opts : Options :=
  ⟨[("DaoFactory", .artifact c4daoFacCfg), ("DaoRegistry", .artifact c4daoRegCfg),
    ("BankFactory", .artifact c10facCfg), ("BankExtension", .artifact c10bankCfg),
    ("offchainVoting", .bool true),
    ("SnapshotProposalContract", .artifact c10snapCfg),
    ("OffchainVotingHashContract", .artifact c10hashCfg),
    ("KickBadReporterAdapter", .artifact c10kickCfg),
    ("OffchainVotingContract", .artifact c10ovCfg)],
   [c10bankCfg, c10facCfg]⟩

/-- Witness for C10: in a run with off-chain voting enabled, the voting
contract — whose descriptor is Test-category and `skipAutoDeploy` — lands
in the adapters map under its alias, and the map holds one entry although
the table has zero enabled Adapter descriptors. -/
theorem deployDao_offchain_into_adapters_witness :
    ∃ r sEnd, deployDao [] c10opts ⟨0, []⟩ = .ok r sEnd ∧
      (∃ ov adapters0, r.votingHelpers.offchainVoting = some ov ∧
        r.adapters = jsInsert adapters0 ov.configs.aliasName ov ∧
        r.adapters.lookup ov.configs.aliasName = some ov) ∧
      r.adapters.lookup "c10ov" = some ⟨c10ovCfg, 7⟩ ∧
      c10ovCfg.ctype = .Test ∧ c10ovCfg.skipAutoDeploy = true ∧
      enabledOfType c10opts .Adapter = [] ∧ r.adapters.length = 1 :=
  ⟨_, _, rfl,
   deployDao_offchain_into_adapters [] c10opts ⟨0, []⟩ _ _ rfl (by decide),
   rfl, rfl, rfl, rfl, rfl⟩

theorem deployContract_ok_configs (c : ContractConfig) (o : Options) (s : Chain)
    (acfg : ContractConfig) (hart : o.get c.name = .artifact acfg)
    (d : Deployed) (s2 : Chain) (h : deployContract c o s = .ok d s2) :
    d.configs = acfg := by
  unfold deployContract at h
  have htr : truthy (o.get c.name) = true := by rw [hart]; rfl
  simp only [htr, Bool.true_eq_false, if_false, hart, deployFunction] at h
  by_cases hemp : c.deploymentArgs.isEmpty = true
  · simp only [hemp, if_true] at h
    injection h with h1 _
    rw [← h1]
  · simp only [hemp, Bool.false_eq_true, if_false] at h
    cases hr : resolveArgs o (fun a => .missingArgument a c.name) c.deploymentArgs with
    | error e =>
      simp only [hr] at h
      exact Res.noConfusion h
    | ok args =>
      simp only [hr] at h
      injection h with h1 _
      rw [← h1]

theorem deployByTypeGo_erase (o : Options) :
    ∀ (l : List ContractConfig) (m : JSMap Deployed) (s : Chain) (m2 : JSMap Deployed)
      (s2 : Chain),
    (∀ c ∈ l, o.get c.name = .artifact c) →
    (m.map Prod.fst ++ l.map ContractConfig.aliasName).Nodup →
    deployByTypeGo o l m s = .ok m2 s2 →
    eraseMap m2 = eraseMap m ++ l.map (fun c => (c.aliasName, c)) := by
  intro l
  induction l with
  | nil =>
    intro m s m2 s2 _ _ h
    simp only [deployByTypeGo] at h
    cases h
    simp
  | cons c rest ih =>
    intro m s m2 s2 hWFl hND h
    simp only [deployByTypeGo] at h
    cases hd : deployContract c o s with
    | err e sx =>
      simp only [hd] at h
      exact Res.noConfusion h
    | ok d sx =>
      simp only [hd] at h
      have hcfg : d.configs = c :=
        deployContract_ok_configs c o s c (hWFl c (List.mem_cons_self c rest)) d sx hd
      have hna : c.aliasName ∉ m.map Prod.fst := by
        intro hmem
        have hdisj := (List.nodup_append.mp hND).2.2
        exact hdisj hmem (by simp)
      have hkey : (m.map Prod.fst).contains c.aliasName = false := by simpa using hna
      have hins : jsInsert m d.configs.aliasName d = m ++ [(c.aliasName, d)] := by
        rw [hcfg]
        exact jsInsert_of_fresh m c.aliasName d (by rw [any_key_eq_contains, hkey])
      rw [hins] at h
      have hND2 : ((m ++ [(c.aliasName, d)]).map Prod.fst ++
          rest.map ContractConfig.aliasName).Nodup := by
        simpa [List.append_assoc] using hND
      have hrec := ih (m ++ [(c.aliasName, d)]) sx m2 s2
        (fun x hx => hWFl x (List.mem_cons_of_mem c hx)) hND2 h
      rw [hrec, eraseMap_append]
      simp [eraseMap, hcfg, List.append_assoc]

theorem createFactoriesGo_erase (o : Options) (hWF : artifactsWellFormed o) :
    ∀ (l : List ContractConfig), (∀ x ∈ l, x ∈ o.contractConfigs) →
    ∀ (m : JSMap Deployed) (s : Chain) (m2 : JSMap Deployed) (s2 : Chain),
    (m.map Prod.fst ++ l.map ContractConfig.aliasName).Nodup →
    createFactoriesGo o l m s = .ok m2 s2 →
    eraseMap m2 = eraseMap m ++ l.map (fun c => (c.aliasName, c)) := by
  intro l
  induction l with
  | nil =>
    intro _ m s m2 s2 _ h
    simp only [createFactoriesGo] at h
    cases h
    simp
  | cons c rest ih =>
    intro hsub m s m2 s2 hND h
    have hWFh : o.get c.name = .artifact c := hWF c (hsub c (List.mem_cons_self c rest))
    have htr : truthy (o.get c.name) = true := by rw [hWFh]; rfl
    simp only [createFactoriesGo, htr, Bool.true_eq_false, if_false] at h
    cases hg : genExt o c.generatesExtensionId with
    | none =>
      simp only [hg] at h
      exact Res.noConfusion h
    | some eh =>
      simp only [hg] at h
      have hWFe : o.get eh.name = .artifact eh := hWF eh (genExt_mem hg)
      have htre : truthy (o.get eh.name) = true := by rw [hWFe]; rfl
      simp only [htre, truthy, Bool.true_eq_false, if_false, hWFh, hWFe, deployFunction] at h
      have hna : c.aliasName ∉ m.map Prod.fst := by
        intro hmem
        have hdisj := (List.nodup_append.mp hND).2.2
        exact hdisj hmem (by simp)
      have hkey : (m.map Prod.fst).contains c.aliasName = false := by simpa using hna
      have hins : jsInsert m c.aliasName (⟨c, s.nextAddr⟩ : Deployed)
          = m ++ [(c.aliasName, ⟨c, s.nextAddr⟩)] :=
        jsInsert_of_fresh m c.aliasName _ (by rw [any_key_eq_contains, hkey])
      rw [show (({ configs := c, address := s.nextAddr } : Deployed).configs.aliasName)
        = c.aliasName from rfl, hins] at h
      have hND2 : ((m ++ [(c.aliasName, (⟨c, s.nextAddr⟩ : Deployed))]).map Prod.fst ++
          rest.map ContractConfig.aliasName).Nodup := by
        simpa [List.append_assoc] using hND
      have hrec := ih (fun x hx => hsub x (List.mem_cons_of_mem c hx))
        (m ++ [(c.aliasName, ⟨c, s.nextAddr⟩)]) _ m2 s2 hND2 h
      rw [hrec, eraseMap_append]
      simp [eraseMap, List.append_assoc]

/-- The alias-keyed entry contributed to the extensions map by a factory
descriptor: the alias and descriptor of its resolved generated extension,
when the link resolves. -/
def genEntry (o : Options) (cfg : ContractConfig) : Option (String × ContractConfig) :=
  (genExt o cfg.generatesExtensionId).map (fun e => (e.aliasName, e))

theorem createExtensionFinish_ok_configs (o : Options) (f : Deployed)
    (extCfg : ContractConfig) (args : Option (List JSVal)) (s : Chain)
    (ext : Deployed) (s2 : Chain)
    (hWFe : o.get extCfg.name = .artifact extCfg)
    (h : createExtensionFinish o f extCfg args s = .ok ext s2) : ext.configs = extCfg := by
  unfold createExtensionFinish at h
  simp only [hWFe, truthy, Bool.true_eq_false, if_false, freshAddr] at h
  injection h with h1 _
  rw [← h1]

theorem createExtensionStep_ok_configs (o : Options) (hWF : artifactsWellFormed o)
    (f : Deployed) (s : Chain) (ext : Deployed) (s2 : Chain)
    (h : createExtensionStep o f s = .ok ext s2) :
    ∃ extCfg, genExt o f.configs.generatesExtensionId = some extCfg ∧ ext.configs = extCfg := by
  unfold createExtensionStep at h
  cases hg : genExt o f.configs.generatesExtensionId with
  | none =>
    simp only [hg] at h
    exact Res.noConfusion h
  | some extCfg =>
    simp only [hg] at h
    refine ⟨extCfg, rfl, ?_⟩
    have hWFe : o.get extCfg.name = .artifact extCfg := hWF extCfg (genExt_mem hg)
    by_cases hemp : f.configs.deploymentArgs.isEmpty = true
    · simp only [hemp, if_true] at h
      exact createExtensionFinish_ok_configs o f extCfg none s ext s2 hWFe h
    · simp only [hemp, Bool.false_eq_true, if_false] at h
      cases hr : resolveArgs o (fun a => .missingCreateArg a f.configs.name)
          f.configs.deploymentArgs with
      | error e =>
        simp only [hr] at h
        exact Res.noConfusion h
      | ok vs =>
        simp only [hr] at h
        exact createExtensionFinish_ok_configs o f extCfg (some vs) s ext s2 hWFe h

theorem createExtensionsGo_erase (o : Options) (hWF : artifactsWellFormed o) :
    ∀ (fl : List (String × Deployed)) (m : JSMap Deployed) (s : Chain) (m2 : JSMap Deployed)
      (s2 : Chain),
    (m.map Prod.fst ++ fl.filterMap (fun p => (genEntry o p.2.configs).map Prod.fst)).Nodup →
    createExtensionsGo o fl m s = .ok m2 s2 →
    eraseMap m2 = eraseMap m ++ fl.filterMap (fun p => genEntry o p.2.configs) := by
  intro fl
  induction fl with
  | nil =>
    intro m s m2 s2 _ h
    simp only [createExtensionsGo] at h
    cases h
    simp
  | cons p rest ih =>
    obtain ⟨k, f⟩ := p
    intro m s m2 s2 hND h
    simp only [createExtensionsGo] at h
    cases hstep : createExtensionStep o f s with
    | err e sx =>
      simp only [hstep] at h
      exact Res.noConfusion h
    | ok ext sx =>
      simp only [hstep] at h
      obtain ⟨extCfg, hg, hcfg⟩ := createExtensionStep_ok_configs o hWF f s ext sx hstep
      have hentry : genEntry o f.configs = some (extCfg.aliasName, extCfg) := by
        simp [genEntry, hg]
      rw [List.filterMap_cons] at hND ⊢
      simp only [hentry, Option.map_some] at hND ⊢
      have hna : extCfg.aliasName ∉ m.map Prod.fst := by
        intro hmem
        have hdisj := (List.nodup_append.mp hND).2.2
        exact hdisj hmem (by simp)
      have hkey : (m.map Prod.fst).contains extCfg.aliasName = false := by simpa using hna
      have hins : jsInsert m ext.configs.aliasName ext = m ++ [(extCfg.aliasName, ext)] := by
        rw [hcfg]
        exact jsInsert_of_fresh m extCfg.aliasName ext (by rw [any_key_eq_contains, hkey])
      rw [hins] at h
      have hND2 : ((m ++ [(extCfg.aliasName, ext)]).map Prod.fst ++
          rest.filterMap (fun p => (genEntry o p.2.configs).map Prod.fst)).Nodup := by
        simpa [List.append_assoc] using hND
      have hrec := ih (m ++ [(extCfg.aliasName, ext)]) sx m2 s2 hND2 h
      rw [hrec, eraseMap_append]
      simp [eraseMap, hcfg, List.append_assoc]

/-- The aliases of the extensions generated by the enabled, non-skipped
factories, in factory order. -/
def genExtAliases (o : Options) : List String :=
  (enabledOfType o .Factory).filterMap (fun c => (genEntry o c).map Prod.fst)

def c1testCfg : ContractConfig :=
  ⟨"c1-test", "C1TestToken", "c1Test", .Test, true, false, [], none, ⟨none, []⟩, []⟩

def c1opts : Options :=
  ⟨[("DaoFactory", .artifact c4daoFacCfg), ("DaoRegistry", .artifact c4daoRegCfg),
    ("C1TestToken", .artifact c1testCfg)], [c1testCfg]⟩

/-- Counterexample to claim C1 as stated: with an enabled, non-skipped Test
descriptor and its artifact present but `deployTestTokens` unset,
`deployDao` completes while the aggregate contains zero entries for that
descriptor — the Test phase is gated by `deployTestTokens`, so "exactly one
entry per enabled, non-skipped descriptor of a deployable category" fails. -/
theorem deployDao_aggregate_counterexample :
    ∃ r s2, deployDao [] c1opts ⟨0, []⟩ = .ok r s2 ∧
      c1testCfg ∈ c1opts.contractConfigs ∧ c1testCfg.ctype = .Test ∧
      c1testCfg.enabled = true ∧ c1testCfg.skipAutoDeploy = false ∧
      r.testContracts = [] := by
  refine ⟨_, _, rfl, ?_, rfl, rfl, rfl, rfl⟩
  decide

/-- Claim C1 (amended): for a well-formed options bag (artifacts embed
their descriptors; descriptor names avoid the reserved keys inserted by
`deployDao`; aliases are pairwise distinct and distinct from the built-in
`daoFactory` key; the generated-extension aliases are pairwise distinct)
with the off-chain voting flag unset, every completing `deployDao` run
returns: an adapters map keyed exactly by the aliases of the enabled,
non-skipped Adapter descriptors in table order; likewise for utility
contracts; a test-contracts map keyed by the enabled, non-skipped Test
aliases when `deployTestTokens` is truthy and empty otherwise; a factories
map keyed by the enabled, non-skipped Factory aliases plus the built-in
`daoFactory` entry; and an extensions map keyed by the aliases of the
extensions generated by the enabled, non-skipped factories (regardless of
those extension descriptors' own enablement).  Disabled or skipped
descriptors of these categories contribute no keys. -/
theorem deployDao_result_keys (extIds : List String) (o : Options) (s : Chain)
    (r : DeployedDao) (sEnd : Chain)
    (h : deployDao extIds o s = .ok r sEnd)
    (hWF : artifactsWellFormed o)
    (hres : ∀ c ∈ o.contractConfigs,
      c.name ≠ "daoAddress" ∧ c.name ≠ "unitTokenToMint" ∧ c.name ≠ "lootTokenToMint")
    (hflag : truthy (o.get "offchainVoting") = false)
    (hAl : (o.contractConfigs.map ContractConfig.aliasName).Nodup)
    (hDF : "daoFactory" ∉ o.contractConfigs.map ContractConfig.aliasName)
    (hGen : (genExtAliases o).Nodup) :
    r.adapters.map Prod.fst = (enabledOfType o .Adapter).map ContractConfig.aliasName ∧
    r.utilContracts.map Prod.fst = (enabledOfType o .Util).map ContractConfig.aliasName ∧
    r.testContracts.map Prod.fst =
      (if truthy (o.get "deployTestTokens") = true
       then (enabledOfType o .Test).map ContractConfig.aliasName else []) ∧
    r.factories.map Prod.fst =
      (enabledOfType o .Factory).map ContractConfig.aliasName ++ ["daoFactory"] ∧
    r.extensions.map Prod.fst = genExtAliases o := by
  obtain ⟨dao, daoFactory, s1, factories, s2, extensions, s3, adapters, s4, s5, vh, s6,
    utils, s7, tests, s8, hc, hf, he, ha, hd, hv, hu, htt, hr, hs⟩ :=
    deployDao_decomp extIds o s r sEnd h
  have hWF1 : artifactsWellFormed (extendedOptions o dao.address) := by
    intro c hcm
    have hcm' : c ∈ o.contractConfigs := hcm
    obtain ⟨h1, h2, h3⟩ := hres c hcm'
    rw [extendedOptions_get_other o dao.address c.name h1 h2 h3]
    exact hWF c hcm'
  have hsubl : ∀ t : ContractType,
      ((enabledOfType o t).map ContractConfig.aliasName).Sublist
        (o.contractConfigs.map ContractConfig.aliasName) := by
    intro t
    refine List.Sublist.map _ ?_
    unfold enabledOfType
    exact (List.filter_sublist _).trans ((List.filter_sublist _).trans (List.filter_sublist _))
  have hNodupT : ∀ t, ((enabledOfType o t).map ContractConfig.aliasName).Nodup :=
    fun t => List.Nodup.sublist (hsubl t) hAl
  -- adapters
  have hAdErase : eraseMap adapters =
      (enabledOfType o .Adapter).map (fun c => (c.aliasName, c)) := by
    have hx := deployByTypeGo_erase (extendedOptions o dao.address)
      (enabledOfType o .Adapter) [] s3 adapters s4
      (fun c hcm => hWF1 c (mem_of_enabledOfType hcm)) (by simpa using hNodupT .Adapter) ha
    simpa using hx
  have hAdKeys : adapters.map Prod.fst
      = (enabledOfType o .Adapter).map ContractConfig.aliasName := by
    have h1 := congrArg (List.map Prod.fst) hAdErase
    rw [keys_eraseMap] at h1
    simpa [List.map_map] using h1
  -- voting disabled
  have hflag1 : truthy ((extendedOptions o dao.address).get "offchainVoting") = false := by
    rw [extendedOptions_get_other o dao.address "offchainVoting" (by decide) (by decide)
      (by decide)]
    exact hflag
  have hvh : vh = ⟨none, none, none⟩ := by
    have h2 := configureOffchainVoting_disabled (extendedOptions o dao.address) extensions s5
      hflag1
    rw [hv] at h2
    simp only [Res.ok.injEq] at h2
    exact h2.1
  -- utils
  have hUErase : eraseMap utils =
      (enabledOfType o .Util).map (fun c => (c.aliasName, c)) := by
    have hx := deployByTypeGo_erase (extendedOptions o dao.address)
      (enabledOfType o .Util) [] s6 utils s7
      (fun c hcm => hWF1 c (mem_of_enabledOfType hcm)) (by simpa using hNodupT .Util) hu
    simpa using hx
  have hUKeys : utils.map Prod.fst
      = (enabledOfType o .Util).map ContractConfig.aliasName := by
    have h1 := congrArg (List.map Prod.fst) hUErase
    rw [keys_eraseMap] at h1
    simpa [List.map_map] using h1
  -- tests
  have hdtt : (extendedOptions o dao.address).get "deployTestTokens"
      = o.get "deployTestTokens" :=
    extendedOptions_get_other o dao.address _ (by decide) (by decide) (by decide)
  have hTKeys : tests.map Prod.fst =
      (if truthy (o.get "deployTestTokens") = true
       then (enabledOfType o .Test).map ContractConfig.aliasName else []) := by
    unfold createTestContracts at htt
    rw [hdtt] at htt
    by_cases hb : truthy (o.get "deployTestTokens") = false
    · simp only [hb, if_true] at htt
      injection htt with h1 _
      rw [← h1]
      simp [hb]
    · have hb' : truthy (o.get "deployTestTokens") = true := by
        cases hbb : truthy (o.get "deployTestTokens")
        · exact absurd hbb hb
        · rfl
      simp only [hb', Bool.true_eq_false, if_false] at htt
      have hx := deployByTypeGo_erase (extendedOptions o dao.address)
        (enabledOfType o .Test) [] s7 tests s8
        (fun c hcm => hWF1 c (mem_of_enabledOfType hcm)) (by simpa using hNodupT .Test) htt
      have h1 := congrArg (List.map Prod.fst) hx
      rw [keys_eraseMap] at h1
      rw [if_pos hb']
      simpa [List.map_map] using h1
  -- factories
  have hFErase : eraseMap factories =
      (enabledOfType o .Factory).map (fun c => (c.aliasName, c)) := by
    have hx := createFactoriesGo_erase (extendedOptions o dao.address) hWF1
      (enabledOfType o .Factory) (fun x hx2 => mem_of_enabledOfType hx2) [] s1 factories s2
      (by simpa using hNodupT .Factory) hf
    simpa using hx
  have hFKeys : factories.map Prod.fst
      = (enabledOfType o .Factory).map ContractConfig.aliasName := by
    have h1 := congrArg (List.map Prod.fst) hFErase
    rw [keys_eraseMap] at h1
    simpa [List.map_map] using h1
  have hDFnot : (factories.map Prod.fst).contains "daoFactory" = false := by
    rw [hFKeys]
    have hnm : "daoFactory" ∉ (enabledOfType o .Factory).map ContractConfig.aliasName := by
      intro hmem
      exact hDF ((hsubl .Factory).subset hmem)
    simpa using hnm
  -- extensions
  have hconf : factories.map (fun p => p.2.configs) = enabledOfType o .Factory := by
    have h1 := congrArg (List.map Prod.snd) hFErase
    simp only [eraseMap, List.map_map] at h1
    rw [show (Prod.snd ∘ fun p : String × Deployed => (p.1, p.2.configs))
        = (fun p : String × Deployed => p.2.configs) from rfl,
      show (Prod.snd ∘ fun c : ContractConfig => (c.aliasName, c))
        = (fun c : ContractConfig => c) from rfl, List.map_id'] at h1
    exact h1
  have hfm : factories.filterMap (fun p => (genEntry o p.2.configs).map Prod.fst)
      = genExtAliases o := by
    rw [show (fun p : String × Deployed => (genEntry o p.2.configs).map Prod.fst)
        = (fun cfg => (genEntry o cfg).map Prod.fst) ∘ (fun p : String × Deployed => p.2.configs)
        from rfl]
    rw [← List.filterMap_map, hconf]
    rfl
  have hEErase : eraseMap extensions =
      factories.filterMap (fun p => genEntry o p.2.configs) := by
    have hgE : genEntry (extendedOptions o dao.address) = genEntry o := rfl
    have hx := createExtensionsGo_erase (extendedOptions o dao.address) hWF1
      factories [] s2 extensions s3
      (by simp only [List.map_nil, List.nil_append, hgE]; rw [hfm]; exact hGen) he
    simpa [hgE] using hx
  have hEKeys : extensions.map Prod.fst = genExtAliases o := by
    have h1 := congrArg (List.map Prod.fst) hEErase
    rw [keys_eraseMap] at h1
    rw [h1, List.map_filterMap]
    rw [show (fun p : String × Deployed => (genEntry o p.2.configs).map Prod.fst)
        = (fun cfg => (genEntry o cfg).map Prod.fst) ∘ (fun p : String × Deployed => p.2.configs)
        from rfl] at hfm
    rw [← List.filterMap_map] at hfm
    simpa using hfm
  refine ⟨?_, ?_, ?_, ?_, ?_⟩
  · rw [hr]
    simpa [hvh] using hAdKeys
  · rw [hr]
    exact hUKeys
  · rw [hr]
    exact hTKeys
  · rw [hr]
    show (jsInsert factories "daoFactory" daoFactory).map Prod.fst = _
    rw [jsInsert_keys_fresh factories "daoFactory" daoFactory hDFnot, hFKeys]
  · rw [hr]
    exact hEKeys

def c1wAdCfg : ContractConfig :=
  ⟨"c1w-ad", "C1WAdapter", "c1wAd", .Adapter, true, false, [], none, ⟨none, []⟩, []⟩

def c1wBankCfg : ContractConfig :=
  ⟨"c1w-bank", "C1WBank", "c1wBank", .Extension, true, false, [], none, ⟨none, []⟩, []⟩

def c1wFacCfg : ContractConfig :=
  ⟨"c1w-fac", "C1WBankFactory", "c1wFac", .Factory, true, false, [], some "c1w-bank",
   ⟨none, []⟩, []⟩

def c1wTestCfg : ContractConfig :=
  ⟨"c1w-test", "C1WTest", "c1wTest", .Test, true, false, [], none, ⟨none, []⟩, []⟩

def c1wDisabledCfg : ContractConfig :=
  ⟨"c1w-dis", "C1WDisabled", "c1wDis", .Adapter, false, false, [], none, ⟨none, []⟩, []⟩

def c1wOpts : Options :=
  ⟨[("DaoFactory", .artifact c4daoFacCfg), ("DaoRegistry", .artifact c4daoRegCfg),
    ("C1WAdapter", .artifact c1wAdCfg), ("C1WBank", .artifact c1wBankCfg),
    ("C1WBankFactory", .artifact c1wFacCfg), ("C1WTest", .artifact c1wTestCfg),
    ("C1WDisabled", .artifact c1wDisabledCfg), ("deployTestTokens", .bool true)],
   [c1wAdCfg, c1wBankCfg, c1wFacCfg, c1wTestCfg, c1wDisabledCfg]⟩

/-- Witness for the amended C1: a table with an enabled adapter, a factory
generating an extension, an enabled test token (with `deployTestTokens`
set) and a disabled adapter yields exactly the expected alias keys per
category — and no key for the disabled adapter. -/
theorem deployDao_result_keys_witness :
    ∃ r sEnd, deployDao [] c1wOpts ⟨0, []⟩ = .ok r sEnd ∧
      r.adapters.map Prod.fst = ["c1wAd"] ∧
      r.utilContracts.map Prod.fst = [] ∧
      r.testContracts.map Prod.fst = ["c1wTest"] ∧
      r.factories.map Prod.fst = ["c1wFac", "daoFactory"] ∧
      r.extensions.map Prod.fst = ["c1wBank"] := by
  obtain ⟨h1, h2, h3, h4, h5⟩ := deployDao_result_keys [] c1wOpts ⟨0, []⟩ _ _ rfl
    (by unfold artifactsWellFormed; decide) (by decide) (by decide) (by decide) (by decide)
    (by decide)
  exact ⟨_, _, rfl, by rw [h1]; rfl, by rw [h2]; rfl, by rw [h3]; rfl, by rw [h4]; rfl,
    by rw [h5]; rfl⟩

/-! ### Shape determinism across fresh DAO namespaces (pairwise run relation) -/

/-- The descriptor-level shape of the voting helpers. -/
def eraseVoting (v : VotingHelpers) :
    Option ContractConfig × Option ContractConfig × Option ContractConfig :=
  (v.snapshotProposalContract.map eraseD, v.handleBadReporterAdapter.map eraseD,
   v.offchainVoting.map eraseD)

/-- The descriptor-level shape of a `deployDao` aggregate: every map with
its keys and descriptors, addresses erased. -/
structure DaoShape where
  dao : ContractConfig
  adapters : JSMap ContractConfig
  extensions : JSMap ContractConfig
  testContracts : JSMap ContractConfig
  utilContracts : JSMap ContractConfig
  voting : Option ContractConfig × Option ContractConfig × Option ContractConfig
  factories : JSMap ContractConfig
deriving DecidableEq, Repr

def eraseResult (r : DeployedDao) : DaoShape :=
  ⟨r.dao.configs, eraseMap r.adapters, eraseMap r.extensions, eraseMap r.testContracts,
   eraseMap r.utilContracts, eraseVoting r.votingHelpers, eraseMap r.factories⟩

/-- Two bag values that differ at most in the concrete address they carry. -/
def valEquiv (v w : JSVal) : Prop :=
  v = w ∨ ∃ a b, v = .addr a ∧ w = .addr b

/-- Two options bags with the same configuration table whose values differ
at most in concrete addresses (as arise from two runs on fresh DAO
namespaces). -/
def optEquiv (o o2 : Options) : Prop :=
  o.contractConfigs = o2.contractConfigs ∧ ∀ k, valEquiv (o.get k) (o2.get k)

theorem valEquiv_truthy {v w : JSVal} (h : valEquiv v w) : truthy v = truthy w := by
  rcases h with rfl | ⟨a, b, rfl, rfl⟩ <;> rfl

theorem valEquiv_artifact {v w : JSVal} {c : ContractConfig} (h : valEquiv v w)
    (hv : v = .artifact c) : w = .artifact c := by
  rcases h with rfl | ⟨a, b, rfl, rfl⟩
  · exact hv
  · exact absurd hv (by simp)

theorem optEquiv_refl (o : Options) : optEquiv o o := ⟨rfl, fun _ => Or.inl rfl⟩

theorem extendedOptions_get (o : Options) (a : Nat) (k : String) :
    (extendedOptions o a).get k =
      if k = "lootTokenToMint" then LOOT
      else if k = "unitTokenToMint" then UNITS
      else if k = "daoAddress" then JSVal.addr a
      else o.get k := by
  by_cases h3 : k = "lootTokenToMint"
  · subst h3
    show (match ((jsInsert _ "lootTokenToMint" LOOT).lookup "lootTokenToMint") with
      | some v => v | none => JSVal.undefined) = _
    rw [jsInsert_lookup_self]
    simp
  · rw [if_neg h3]
    show (match ((jsInsert (jsInsert (jsInsert o.vals "daoAddress" (.addr a))
        "unitTokenToMint" UNITS) "lootTokenToMint" LOOT).lookup k) with
      | some v => v | none => JSVal.undefined) = _
    rw [jsInsert_lookup_ne _ _ _ _ h3]
    by_cases h2 : k = "unitTokenToMint"
    · subst h2
      rw [jsInsert_lookup_self]
      simp
    · rw [jsInsert_lookup_ne _ _ _ _ h2, if_neg h2]
      by_cases h1 : k = "daoAddress"
      · subst h1
        rw [jsInsert_lookup_self]
        simp
      · rw [jsInsert_lookup_ne _ _ _ _ h1, if_neg h1]
        rfl

theorem optEquiv_extended {o o2 : Options} (h : optEquiv o o2) (a b : Nat) :
    optEquiv (extendedOptions o a) (extendedOptions o2 b) := by
  refine ⟨h.1, fun k => ?_⟩
  rw [extendedOptions_get, extendedOptions_get]
  by_cases h3 : k = "lootTokenToMint"
  · simp only [h3, if_true]
    exact Or.inl rfl
  · rw [if_neg h3, if_neg h3]
    by_cases h2 : k = "unitTokenToMint"
    · simp only [h2, if_true]
      exact Or.inl rfl
    · rw [if_neg h2, if_neg h2]
      by_cases h1 : k = "daoAddress"
      · simp only [h1, if_true]
        exact Or.inr ⟨a, b, rfl, rfl⟩
      · rw [if_neg h1, if_neg h1]
        exact h.2 k

theorem deployFunction_ok_artifact {v : JSVal} {args : Option (List JSVal)} {s : Chain}
    {d : Deployed} {s2 : Chain} (h : deployFunction v args s = .ok d s2) :
    v = .artifact d.configs := by
  cases v <;> simp only [deployFunction] at h
  case artifact cfg =>
    injection h with h1 _
    rw [← h1]
  all_goals exact Res.noConfusion h

theorem deployContract_ok_artifact {c : ContractConfig} {o : Options} {s : Chain}
    {d : Deployed} {s2 : Chain} (h : deployContract c o s = .ok d s2) :
    o.get c.name = .artifact d.configs := by
  unfold deployContract at h
  by_cases h1 : truthy (o.get c.name) = false
  · simp only [h1, if_true] at h
    exact Res.noConfusion h
  · simp only [h1, if_false] at h
    by_cases h2 : c.deploymentArgs.isEmpty = true
    · simp only [h2, if_true] at h
      exact deployFunction_ok_artifact h
    · simp only [h2, Bool.false_eq_true, if_false] at h
      cases hr : resolveArgs o (fun a => .missingArgument a c.name) c.deploymentArgs with
      | error e =>
        simp only [hr] at h
        exact Res.noConfusion h
      | ok args =>
        simp only [hr] at h
        exact deployFunction_ok_artifact h

theorem deployContract_pair {c : ContractConfig} {o o2 : Options} (heq : optEquiv o o2)
    {s t : Chain} {d1 d2 : Deployed} {s2 t2 : Chain}
    (h1 : deployContract c o s = .ok d1 s2) (h2 : deployContract c o2 t = .ok d2 t2) :
    d1.configs = d2.configs := by
  have ha1 := deployContract_ok_artifact h1
  have ha2 := deployContract_ok_artifact h2
  have ha2' := valEquiv_artifact (heq.2 c.name) ha1
  rw [ha2] at ha2'
  injection ha2' with h3
  exact h3.symm

theorem deployByTypeGo_pair {o o2 : Options} (heq : optEquiv o o2) :
    ∀ (l : List ContractConfig) (m m' : JSMap Deployed), eraseMap m = eraseMap m' →
    ∀ (s t : Chain) (m2 m2' : JSMap Deployed) (s2 t2 : Chain),
    deployByTypeGo o l m s = .ok m2 s2 → deployByTypeGo o2 l m' t = .ok m2' t2 →
    eraseMap m2 = eraseMap m2' := by
  intro l
  induction l with
  | nil =>
    intro m m' hm s t m2 m2' s2 t2 h1 h2
    simp only [deployByTypeGo] at h1 h2
    cases h1
    cases h2
    exact hm
  | cons c rest ih =>
    intro m m' hm s t m2 m2' s2 t2 h1 h2
    simp only [deployByTypeGo] at h1 h2
    cases hd1 : deployContract c o s with
    | err e sx =>
      simp only [hd1] at h1
      exact Res.noConfusion h1
    | ok d1 sx =>
      simp only [hd1] at h1
      cases hd2 : deployContract c o2 t with
      | err e tx =>
        simp only [hd2] at h2
        exact Res.noConfusion h2
      | ok d2 tx =>
        simp only [hd2] at h2
        have hcfg := deployContract_pair heq hd1 hd2
        refine ih (jsInsert m d1.configs.aliasName d1) (jsInsert m' d2.configs.aliasName d2)
          ?_ sx tx m2 m2' s2 t2 h1 h2
        rw [eraseMap_jsInsert, eraseMap_jsInsert, hm, hcfg]

theorem createFactoriesGo_pair {o o2 : Options} (heq : optEquiv o o2) :
    ∀ (l : List ContractConfig) (m m' : JSMap Deployed), eraseMap m = eraseMap m' →
    ∀ (s t : Chain) (m2 m2' : JSMap Deployed) (s2 t2 : Chain),
    createFactoriesGo o l m s = .ok m2 s2 → createFactoriesGo o2 l m' t = .ok m2' t2 →
    eraseMap m2 = eraseMap m2' := by
  intro l
  induction l with
  | nil =>
    intro m m' hm s t m2 m2' s2 t2 h1 h2
    simp only [createFactoriesGo] at h1 h2
    cases h1
    cases h2
    exact hm
  | cons c rest ih =>
    intro m m' hm s t m2 m2' s2 t2 h1 h2
    simp only [createFactoriesGo] at h1 h2
    have htr2 : truthy (o2.get c.name) = truthy (o.get c.name) :=
      (valEquiv_truthy (heq.2 c.name)).symm
    rw [htr2] at h2
    by_cases hb : truthy (o.get c.name) = false
    · simp only [hb, if_true] at h1
      exact Res.noConfusion h1
    · simp only [hb, if_false] at h1 h2
      have hge : genExt o2 c.generatesExtensionId = genExt o c.generatesExtensionId := by
        unfold genExt
        rw [← heq.1]
      rw [hge] at h2
      cases hg : genExt o c.generatesExtensionId with
      | none =>
        simp only [hg] at h1
        exact Res.noConfusion h1
      | some eh =>
        simp only [hg] at h1 h2
        have htre2 : truthy (o2.get eh.name) = truthy (o.get eh.name) :=
          (valEquiv_truthy (heq.2 eh.name)).symm
        rw [htre2] at h2
        by_cases hbe : truthy (o.get eh.name) = false
        · simp only [hbe, if_true] at h1
          exact Res.noConfusion h1
        · simp only [hbe, if_false] at h1 h2
          cases hd1 : deployFunction (o.get c.name) (some [o.get eh.name]) s with
          | err e sx =>
            simp only [hd1] at h1
            exact Res.noConfusion h1
          | ok f1 sx =>
            simp only [hd1] at h1
            cases hd2 : deployFunction (o2.get c.name) (some [o2.get eh.name]) t with
            | err e tx =>
              simp only [hd2] at h2
              exact Res.noConfusion h2
            | ok f2 tx =>
              simp only [hd2] at h2
              have ha1 := deployFunction_ok_artifact hd1
              have ha2 := deployFunction_ok_artifact hd2
              have ha2' := valEquiv_artifact (heq.2 c.name) ha1
              rw [ha2] at ha2'
              have hcfg : f1.configs = f2.configs := by
                injection ha2' with h3
                exact h3.symm
              refine ih (jsInsert m f1.configs.aliasName f1)
                (jsInsert m' f2.configs.aliasName f2) ?_ sx tx m2 m2' s2 t2 h1 h2
              rw [eraseMap_jsInsert, eraseMap_jsInsert, hm, hcfg]

theorem createExtensionFinish_ok_artifact {o : Options} {f : Deployed}
    {extCfg : ContractConfig} {args : Option (List JSVal)} {s : Chain} {ext : Deployed}
    {s2 : Chain} (h : createExtensionFinish o f extCfg args s = .ok ext s2) :
    o.get extCfg.name = .artifact ext.configs := by
  unfold createExtensionFinish at h
  simp only [freshAddr] at h
  cases hc : o.get extCfg.name <;> simp only [hc] at h
  case artifact acfg =>
    split at h
    · exact Res.noConfusion h
    · injection h with h1 _
      rw [← h1]
  all_goals (split at h <;> exact Res.noConfusion h)

theorem createExtensionStep_ok_artifact {o : Options} {f : Deployed} {s : Chain}
    {ext : Deployed} {s2 : Chain} (h : createExtensionStep o f s = .ok ext s2) :
    ∃ extCfg, genExt o f.configs.generatesExtensionId = some extCfg ∧
      o.get extCfg.name = .artifact ext.configs := by
  unfold createExtensionStep at h
  cases hg : genExt o f.configs.generatesExtensionId with
  | none =>
    simp only [hg] at h
    exact Res.noConfusion h
  | some extCfg =>
    simp only [hg] at h
    refine ⟨extCfg, rfl, ?_⟩
    by_cases hemp : f.configs.deploymentArgs.isEmpty = true
    · simp only [hemp, if_true] at h
      exact createExtensionFinish_ok_artifact h
    · simp only [hemp, Bool.false_eq_true, if_false] at h
      cases hr : resolveArgs o (fun a => .missingCreateArg a f.configs.name)
          f.configs.deploymentArgs with
      | error e =>
        simp only [hr] at h
        exact Res.noConfusion h
      | ok vs =>
        simp only [hr] at h
        exact createExtensionFinish_ok_artifact h

theorem createExtensionStep_pair {o o2 : Options} (heq : optEquiv o o2)
    {f1 f2 : Deployed} (hf : f1.configs = f2.configs)
    {s t : Chain} {e1 e2 : Deployed} {s2 t2 : Chain}
    (h1 : createExtensionStep o f1 s = .ok e1 s2)
    (h2 : createExtensionStep o2 f2 t = .ok e2 t2) :
    e1.configs = e2.configs := by
  obtain ⟨c1, hg1, ha1⟩ := createExtensionStep_ok_artifact h1
  obtain ⟨c2, hg2, ha2⟩ := createExtensionStep_ok_artifact h2
  have hge : genExt o2 f2.configs.generatesExtensionId
      = genExt o f1.configs.generatesExtensionId := by
    unfold genExt
    rw [← heq.1, hf]
  rw [hge, hg1] at hg2
  injection hg2 with hc
  rw [← hc] at ha2
  have ha2' := valEquiv_artifact (heq.2 c1.name) ha1
  rw [ha2] at ha2'
  injection ha2' with h3
  exact h3.symm

theorem createExtensionsGo_pair {o o2 : Options} (heq : optEquiv o o2) :
    ∀ (fl fl' : List (String × Deployed)), eraseMap fl = eraseMap fl' →
    ∀ (m m' : JSMap Deployed), eraseMap m = eraseMap m' →
    ∀ (s t : Chain) (m2 m2' : JSMap Deployed) (s2 t2 : Chain),
    createExtensionsGo o fl m s = .ok m2 s2 → createExtensionsGo o2 fl' m' t = .ok m2' t2 →
    eraseMap m2 = eraseMap m2' := by
  intro fl
  induction fl with
  | nil =>
    intro fl' hfl
    cases fl' with
    | nil =>
      intro m m' hm s t m2 m2' s2 t2 h1 h2
      simp only [createExtensionsGo] at h1 h2
      cases h1
      cases h2
      exact hm
    | cons p' rest' =>
      intro m m' hm s t m2 m2' s2 t2 h1 h2
      exact absurd hfl (by simp [eraseMap])
  | cons p rest ih =>
    intro fl' hfl
    cases fl' with
    | nil =>
      intro m m' hm s t m2 m2' s2 t2 h1 h2
      exact absurd hfl (by simp [eraseMap])
    | cons p' rest' =>
      obtain ⟨k, f⟩ := p
      obtain ⟨k', f'⟩ := p'
      intro m m' hm s t m2 m2' s2 t2 h1 h2
      simp only [eraseMap, List.map_cons, List.cons.injEq, Prod.mk.injEq] at hfl
      simp only [createExtensionsGo] at h1 h2
      cases hs1 : createExtensionStep o f s with
      | err e sx =>
        simp only [hs1] at h1
        exact Res.noConfusion h1
      | ok e1 sx =>
        simp only [hs1] at h1
        cases hs2 : createExtensionStep o2 f' t with
        | err e tx =>
          simp only [hs2] at h2
          exact Res.noConfusion h2
        | ok e2 tx =>
          simp only [hs2] at h2
          have hce := createExtensionStep_pair heq hfl.1.2 hs1 hs2
          refine ih rest' (by simpa [eraseMap] using hfl.2) _ _ ?_ sx tx m2 m2' s2 t2 h1 h2
          rw [eraseMap_jsInsert, eraseMap_jsInsert, hm, hce]

theorem cloneDao_ok {o : Options} {name : JSVal} {s : Chain} {dao daoFactory : Deployed}
    {s1 : Chain} (h : cloneDao o name s = .ok (dao, daoFactory) s1) :
    o.get "DaoFactory" = .artifact daoFactory.configs ∧
    o.get "DaoRegistry" = .artifact dao.configs := by
  unfold cloneDao at h
  cases hd : deployFunction (o.get "DaoFactory") (some [o.get "DaoRegistry"]) s with
  | err e sx =>
    simp only [hd] at h
    exact Res.noConfusion h
  | ok df sx =>
    simp only [hd] at h
    have ha := deployFunction_ok_artifact hd
    cases hr : o.get "DaoRegistry" <;> simp only [hr] at h
    case artifact rcfg =>
      injection h with h1 _
      simp only [Prod.mk.injEq] at h1
      obtain ⟨h3, h4⟩ := h1
      constructor
      · rw [← h4]
        exact ha
      · rw [← h3]
    all_goals exact Res.noConfusion h

theorem cloneDao_pair {o o2 : Options} (heq : optEquiv o o2) {n1 n2 : JSVal}
    {s t : Chain} {dao1 df1 dao2 df2 : Deployed} {s1 t1 : Chain}
    (h1 : cloneDao o n1 s = .ok (dao1, df1) s1) (h2 : cloneDao o2 n2 t = .ok (dao2, df2) t1) :
    dao1.configs = dao2.configs ∧ df1.configs = df2.configs := by
  obtain ⟨hf1, hr1⟩ := cloneDao_ok h1
  obtain ⟨hf2, hr2⟩ := cloneDao_ok h2
  constructor
  · have hx := valEquiv_artifact (heq.2 "DaoRegistry") hr1
    rw [hr2] at hx
    injection hx with h3
    exact h3.symm
  · have hx := valEquiv_artifact (heq.2 "DaoFactory") hf1
    rw [hf2] at hx
    injection hx with h3
    exact h3.symm

theorem configureOffchainVoting_ok_shape {o : Options} {exts : JSMap Deployed} {s : Chain}
    {vh : VotingHelpers} {s2 : Chain}
    (hflag : truthy (o.get "offchainVoting") = true)
    (h : configureOffchainVoting o exts s = .ok vh s2) :
    ∃ snap kick ov : Deployed,
      o.get "SnapshotProposalContract" = .artifact snap.configs ∧
      o.get "KickBadReporterAdapter" = .artifact kick.configs ∧
      o.get "OffchainVotingContract" = .artifact ov.configs ∧
      vh = ⟨some snap, some kick, some ov⟩ := by
  unfold configureOffchainVoting at h
  simp only [hflag, Bool.true_eq_false, if_false] at h
  cases h1 : deployFunction (o.get "SnapshotProposalContract") (some [o.get "chainId"])
      (emit s (.getAdapterAddress (sha3 votingAdapterId))) with
  | err e sx =>
    simp only [h1] at h
    exact Res.noConfusion h
  | ok snap sx =>
    simp only [h1] at h
    cases h2 : deployFunction (o.get "OffchainVotingHashContract")
        (some [.addr snap.address]) sx with
    | err e sy =>
      simp only [h2] at h
      exact Res.noConfusion h
    | ok hashC sy =>
      simp only [h2] at h
      cases h3 : deployFunction (o.get "KickBadReporterAdapter") none sy with
      | err e sz =>
        simp only [h3] at h
        exact Res.noConfusion h
      | ok kick sz =>
        simp only [h3] at h
        cases h4 : deployFunction (o.get "OffchainVotingContract")
            (some [currentVotingAdapterAddress, .addr hashC.address, .addr snap.address,
                   .addr kick.address, o.get "offchainAdmin"]) sz with
        | err e sw =>
          simp only [h4] at h
          exact Res.noConfusion h
        | ok ov sw =>
          simp only [h4] at h
          cases hb : exts.lookup "bankExt" with
          | none =>
            simp only [hb] at h
            exact Res.noConfusion h
          | some bankExt =>
            simp only [hb] at h
            injection h with hv _
            exact ⟨snap, kick, ov, deployFunction_ok_artifact h1,
              deployFunction_ok_artifact h3, deployFunction_ok_artifact h4, hv.symm⟩

theorem configureOffchainVoting_pair {o o2 : Options} (heq : optEquiv o o2)
    {e1 e2 : JSMap Deployed} {s t : Chain} {vh1 vh2 : VotingHelpers} {s2 t2 : Chain}
    (h1 : configureOffchainVoting o e1 s = .ok vh1 s2)
    (h2 : configureOffchainVoting o2 e2 t = .ok vh2 t2) :
    eraseVoting vh1 = eraseVoting vh2 := by
  have hfl : truthy (o2.get "offchainVoting") = truthy (o.get "offchainVoting") :=
    (valEquiv_truthy (heq.2 "offchainVoting")).symm
  by_cases hb : truthy (o.get "offchainVoting") = false
  · have g1 := configureOffchainVoting_disabled o e1 s hb
    have g2 := configureOffchainVoting_disabled o2 e2 t (by rw [hfl]; exact hb)
    rw [h1] at g1
    rw [h2] at g2
    simp only [Res.ok.injEq] at g1 g2
    rw [g1.1, g2.1]
  · have hbt : truthy (o.get "offchainVoting") = true := by
      cases hx : truthy (o.get "offchainVoting")
      · exact absurd hx hb
      · rfl
    obtain ⟨sn1, k1, ov1, hsn1, hk1, ho1, hvv1⟩ := configureOffchainVoting_ok_shape hbt h1
    obtain ⟨sn2, k2, ov2, hsn2, hk2, ho2, hvv2⟩ :=
      configureOffchainVoting_ok_shape (by rw [hfl]; exact hbt) h2
    have hsnc : sn1.configs = sn2.configs := by
      have hx := valEquiv_artifact (heq.2 "SnapshotProposalContract") hsn1
      rw [hsn2] at hx
      injection hx with h3
      exact h3.symm
    have hkc : k1.configs = k2.configs := by
      have hx := valEquiv_artifact (heq.2 "KickBadReporterAdapter") hk1
      rw [hk2] at hx
      injection hx with h3
      exact h3.symm
    have hoc : ov1.configs = ov2.configs := by
      have hx := valEquiv_artifact (heq.2 "OffchainVotingContract") ho1
      rw [ho2] at hx
      injection hx with h3
      exact h3.symm
    rw [hvv1, hvv2]
    simp [eraseVoting, eraseD, hsnc, hkc, hoc]

theorem createTestContracts_pair {o o2 : Options} (heq : optEquiv o o2)
    {s t : Chain} {m2 m2' : JSMap Deployed} {s2 t2 : Chain}
    (h1 : createTestContracts o s = .ok m2 s2) (h2 : createTestContracts o2 t = .ok m2' t2) :
    eraseMap m2 = eraseMap m2' := by
  unfold createTestContracts at h1 h2
  have hfl : truthy (o2.get "deployTestTokens") = truthy (o.get "deployTestTokens") :=
    (valEquiv_truthy (heq.2 "deployTestTokens")).symm
  rw [hfl] at h2
  by_cases hb : truthy (o.get "deployTestTokens") = false
  · simp only [hb, if_true] at h1 h2
    cases h1
    cases h2
    rfl
  · simp only [hb, if_false] at h1 h2
    have hT : enabledOfType o2 .Test = enabledOfType o .Test := by
      unfold enabledOfType
      rw [heq.1]
    rw [hT] at h2
    exact deployByTypeGo_pair heq _ [] [] rfl _ _ _ _ _ _ h1 h2

/-- Claim C7: two `deployDao` runs with the same descriptor table and
options bag against two independent fresh chain namespaces, both
completing, yield result aggregates of identical structure — the same keys
and descriptors in every category map (dao, adapters, extensions,
utilContracts, testContracts, votingHelpers, factories) — differing only in
the concrete on-chain addresses, which the shape erasure discards. -/
theorem deployDao_shape_deterministic (extIds : List String) (o : Options) (s t : Chain)
    (r1 r2 : DeployedDao) (s2 t2 : Chain)
    (h1 : deployDao extIds o s = .ok r1 s2) (h2 : deployDao extIds o t = .ok r2 t2) :
    eraseResult r1 = eraseResult r2 := by
  obtain ⟨dao1, df1, s1a, fac1, s2a, ext1, s3a, ad1, s4a, s5a, vh1, s6a, ut1, s7a, te1, s8a,
    hc1, hf1, he1, ha1, hd1, hv1, hu1, ht1, hr1, hs1⟩ := deployDao_decomp extIds o s r1 s2 h1
  obtain ⟨dao2, df2, s1b, fac2, s2b, ext2, s3b, ad2, s4b, s5b, vh2, s6b, ut2, s7b, te2, s8b,
    hc2, hf2, he2, ha2, hd2, hv2, hu2, ht2, hr2, hs2⟩ := deployDao_decomp extIds o t r2 t2 h2
  obtain ⟨hdao, hdf⟩ := cloneDao_pair (optEquiv_refl o) hc1 hc2
  have heq : optEquiv (extendedOptions o dao1.address) (extendedOptions o dao2.address) :=
    optEquiv_extended (optEquiv_refl o) dao1.address dao2.address
  have hFacE : eraseMap fac1 = eraseMap fac2 :=
    createFactoriesGo_pair heq _ [] [] rfl _ _ _ _ _ _ hf1 hf2
  have hExtE : eraseMap ext1 = eraseMap ext2 :=
    createExtensionsGo_pair heq fac1 fac2 hFacE [] [] rfl _ _ _ _ _ _ he1 he2
  have hAdE : eraseMap ad1 = eraseMap ad2 :=
    deployByTypeGo_pair heq _ [] [] rfl _ _ _ _ _ _ ha1 ha2
  have hUtE : eraseMap ut1 = eraseMap ut2 :=
    deployByTypeGo_pair heq _ [] [] rfl _ _ _ _ _ _ hu1 hu2
  have hTeE : eraseMap te1 = eraseMap te2 := createTestContracts_pair heq ht1 ht2
  have hVoE : eraseVoting vh1 = eraseVoting vh2 := configureOffchainVoting_pair heq hv1 hv2
  rw [hr1, hr2]
  simp only [eraseResult, DaoShape.mk.injEq]
  refine ⟨hdao, ?_, hExtE, hTeE, hUtE, hVoE, ?_⟩
  · have hov : vh1.offchainVoting.map eraseD = vh2.offchainVoting.map eraseD := by
      have := congrArg (fun p => p.2.2) hVoE
      simpa [eraseVoting] using this
    cases hv1o : vh1.offchainVoting with
    | none =>
      cases hv2o : vh2.offchainVoting with
      | none => exact hAdE
      | some ov2 =>
        rw [hv1o, hv2o] at hov
        exact absurd hov (by simp)
    | some ov1 =>
      cases hv2o : vh2.offchainVoting with
      | none =>
        rw [hv1o, hv2o] at hov
        exact absurd hov (by simp)
      | some ov2 =>
        rw [hv1o, hv2o] at hov
        simp only [Option.map_some', Option.some.injEq] at hov
        rw [eraseMap_jsInsert, eraseMap_jsInsert, hAdE]
        have hoc : ov1.configs = ov2.configs := hov
        rw [hoc]
  · rw [eraseMap_jsInsert, eraseMap_jsInsert, hFacE, hdf]

/-- Witness for C7: the same table and options run from two independent
fresh namespaces produce aggregates with equal shapes but unequal concrete
results (the addresses differ). -/
theorem deployDao_shape_deterministic_witness :
    ∃ r1 s2 r2 t2,
      deployDao [] c1wOpts ⟨0, []⟩ = .ok r1 s2 ∧
      deployDao [] c1wOpts ⟨100, []⟩ = .ok r2 t2 ∧
      eraseResult r1 = eraseResult r2 ∧ r1 ≠ r2 :=
  ⟨_, _, _, _, rfl, rfl,
   deployDao_shape_deterministic [] c1wOpts ⟨0, []⟩ ⟨100, []⟩ _ _ _ _ rfl rfl,
   by decide⟩

end TributeDeploy
